import Mathlib

/-!
# Verification of the agentic core of the Obsidian Claude integration plugin

This file shallowly embeds the algorithmic core of `src/main.ts`:

* the context-window manager (`estimateTokens`, `smartPruneHistory`,
  `truncateToolResults`),
* the request client with its retry loop (`callClaude` / `makeRequest`),
* the bounded conversation store (`saveCurrentConversation`),
* the agentic tool-use loop of `sendMessage` (the `while` loop that branches
  on `stop_reason`),
* and, for the frame property about history preparation, an explicit-heap
  model of the same truncation code.

JavaScript strings are modelled as Lean `String`s (a `String` is a list of
`Char`s); `s.substring(0, n)`, `s.toLowerCase()` and `s.length` are embedded
as operations on `String.data`.  JavaScript truthiness tests on optional
string fields (`if (block.text)`) are embedded as "present and nonempty".
Machine arithmetic is immaterial here: all numbers involved are small
non-negative integers (lengths, counts, timestamps, HTTP statuses), so `Nat`
is used throughout, with JavaScript's `history.length - 5` (which may go
negative, and is only ever used on the right of `>=`) matching truncated
`Nat` subtraction.
-/

namespace ObsidianClaude

/-! ## JavaScript string primitives -/

/-- JS `s.length` (number of UTF-16 units; modelled as number of characters). -/
def jsLength (s : String) : Nat := s.data.length

/-- JS `s.substring(0, n)`. -/
def jsSubstring (s : String) (n : Nat) : String := ⟨s.data.take n⟩

/-- JS `s.toLowerCase()`. -/
def jsToLower (s : String) : String := ⟨s.data.map Char.toLower⟩

theorem jsLength_eq (s : String) : jsLength s = s.data.length := rfl

theorem data_append (a b : String) : (a ++ b).data = a.data ++ b.data := rfl

theorem data_empty : ("" : String).data = [] := rfl

theorem jsLength_append (a b : String) : jsLength (a ++ b) = jsLength a + jsLength b := by
  simp [jsLength, data_append]

theorem jsLength_toLower (s : String) : jsLength (jsToLower s) = jsLength s := by
  simp [jsLength, jsToLower]

theorem jsLength_jsSubstring (s : String) (n : Nat) :
    jsLength (jsSubstring s n) = min n (jsLength s) := by
  simp [jsLength, jsSubstring]

/-! ## Data model (`src/main.ts`, interfaces `MessageParam`, `ContentBlock`,
`ClaudePluginSettings`) -/

/-- The `type` tag of a `ContentBlock` (`'text' | 'tool_use' | 'tool_result'`). -/
inductive BlockType
  | text
  | tool_use
  | tool_result
deriving DecidableEq, Repr

/-- `interface ContentBlock` of `src/main.ts`.  All fields other than the tag
are optional there.  The free-form `input` payload is modelled by its JSON
serialization (the code only ever passes it through `JSON.stringify` or hands
it opaquely to the tool executor). -/
structure ContentBlock where
  type : BlockType
  text : Option String := none
  id : Option String := none
  name : Option String := none
  input : Option String := none
  tool_use_id : Option String := none
  content : Option String := none
deriving DecidableEq, Repr

inductive Role
  | user
  | assistant
deriving DecidableEq, Repr

/-- `content: string | ContentBlock[]` of `interface MessageParam`. -/
inductive MsgContent
  | str (s : String)
  | blocks (bs : List ContentBlock)
deriving DecidableEq, Repr

/-- `interface MessageParam` of `src/main.ts`. -/
structure MessageParam where
  role : Role
  content : MsgContent
deriving DecidableEq, Repr

/-- The slice of `ClaudePluginSettings` the verified core reads. -/
structure Settings where
  maxTokens : Nat := 4096
  autoSummarizeThreshold : Nat := 60
  maxHistoryMessages : Nat := 20
  enableSmartPruning : Bool := true
deriving DecidableEq, Repr

/-! ## ContextManager: token estimation (`estimateTokens`,
`estimateHistoryTokens`, `getModelContextWindow`) -/

/-- Characters contributed by one block in `estimateTokens`: the code adds
`block.text.length / 4`, `block.content.length / 4` and
`JSON.stringify(block.input).length / 4` guarded by JS truthiness of each
field (absent or empty fields contribute nothing). -/
def blockChars (b : ContentBlock) : Nat :=
  (match b.text with | some t => jsLength t | none => 0) +
  (match b.content with | some c => jsLength c | none => 0) +
  (match b.input with | some i => jsLength i | none => 0)

/-- `estimateTokens(text)`: `Math.ceil(text.length / 4)` for strings; for
block arrays, `Math.ceil` of the sum of the per-block quarter-lengths (the
summands `len / 4` are exact in floating point, so the float sum equals the
rational sum and `Math.ceil(Σ len_i / 4) = ⌈(Σ len_i) / 4⌉`). -/
def estimateTokens : MsgContent → Nat
  | .str s => (jsLength s + 3) / 4
  | .blocks bs => ((bs.foldl (fun acc b => acc + blockChars b) 0) + 3) / 4

/-- `estimateHistoryTokens(messages)`: sum of per-message estimates. -/
def estimateHistoryTokens (messages : List MessageParam) : Nat :=
  messages.foldl (fun total msg => total + estimateTokens msg.content) 0

/-- `getModelContextWindow()`: every branch of the source returns `200000`. -/
def getModelContextWindow : Nat := 200000

/-! ## ContextManager: smart pruning (`smartPruneHistory`) -/

/-- The acknowledgment test applied to the lowercased string content:
`content === 'ok' || content === 'thanks' || content === 'thank you' ||
content === 'got it' || content.length < 10`. -/
def isAcknowledgment (lowered : String) : Bool :=
  lowered = "ok" || lowered = "thanks" || lowered = "thank you" ||
    lowered = "got it" || jsLength lowered < 10

/-- Whether iteration `i` of the pruning loop pushes the message, for a
history of length `len`: always for `i >= len - 5`; otherwise string content
is kept iff it is not an acknowledgment, block content is always kept. -/
def keepMessage (len i : Nat) (msg : MessageParam) : Bool :=
  if len - 5 ≤ i then true
  else
    match msg.content with
    | .str c => !(isAcknowledgment (jsToLower c))
    | .blocks _ => true

/-- The `for (let i = 0; ...)` accumulation loop of `smartPruneHistory`. -/
def pruneGo (len : Nat) : Nat → List MessageParam → List MessageParam
  | _, [] => []
  | i, m :: rest =>
    if keepMessage len i m then m :: pruneGo len (i + 1) rest
    else pruneGo len (i + 1) rest

/-- `smartPruneHistory(history)` of `src/main.ts:1422`. -/
def smartPruneHistory (s : Settings) (history : List MessageParam) : List MessageParam :=
  if s.enableSmartPruning then pruneGo history.length 0 history else history

/-! ## ContextManager: truncation (`truncateToolResults`) -/

def MAX_TOOL_RESULT_LENGTH : Nat := 500

def MAX_TEXT_LENGTH : Nat := 2000

/-- Marker appended to truncated tool results. -/
def toolResultMarker : String := "\n\n[... truncated to save tokens ...]"

/-- Marker appended to truncated old assistant free text. -/
def textMarker : String := "\n\n[... previous response truncated to save tokens ...]"

/-- JS `array.slice(-k)` (for `k = 0`, `slice(-0)` is `slice(0)`, the whole
array). -/
def jsSliceLast (l : List α) (k : Nat) : List α :=
  if k = 0 then l else l.drop (l.length - k)

/-- The per-block truncation inside `truncateToolResults`: a `tool_result`
block with truthy `content` longer than `MAX_TOOL_RESULT_LENGTH` is replaced
by a copy whose content is cut at that length with the marker appended. -/
def truncBlock (b : ContentBlock) : ContentBlock :=
  match b.content with
  | some c =>
    if b.type = BlockType.tool_result ∧ c ≠ "" ∧ jsLength c > MAX_TOOL_RESULT_LENGTH then
      { b with content := some (jsSubstring c MAX_TOOL_RESULT_LENGTH ++ toolResultMarker) }
    else b
  | none => b

/-- The per-message body of the final `.map((msg, index) => ...)` of
`truncateToolResults` for a trimmed history of length `len`. -/
def truncMsg (len i : Nat) (msg : MessageParam) : MessageParam :=
  if len - 3 ≤ i then msg
  else
    match msg.content with
    | .blocks bs => { msg with content := .blocks (bs.map truncBlock) }
    | .str c =>
      if jsLength c > MAX_TEXT_LENGTH ∧ msg.role = Role.assistant then
        { msg with content := .str (jsSubstring c MAX_TEXT_LENGTH ++ textMarker) }
      else msg

/-- Index-passing form of the final `.map((msg, index) => ...)`. -/
def truncMapGo (len : Nat) : Nat → List MessageParam → List MessageParam
  | _, [] => []
  | i, m :: rest => truncMsg len i m :: truncMapGo len (i + 1) rest

theorem truncMapGo_cons (len i : Nat) (m : MessageParam) (rest : List MessageParam) :
    truncMapGo len i (m :: rest) = truncMsg len i m :: truncMapGo len (i + 1) rest := rfl

/-- `truncateToolResults(history)` of `src/main.ts:1466`: smart pruning, the
hard message-count cap (with the auto-summarize split when the usage ratio
exceeds the threshold — the asynchronous summary request only writes
`conversationSummary`, never the history, so the returned history is
`slice(-10)` in that branch), then per-message content truncation.  The float
comparison `(tokensUsed / contextWindow) * 100 > threshold` is embedded as
the exact rational comparison `tokensUsed * 100 > threshold * contextWindow`. -/
def truncateToolResults (s : Settings) (history : List MessageParam) : List MessageParam :=
  let trimmedHistory := smartPruneHistory s history
  let trimmedHistory :=
    if trimmedHistory.length > s.maxHistoryMessages then
      let tokensUsed := estimateHistoryTokens trimmedHistory
      let contextWindow := getModelContextWindow
      if tokensUsed * 100 > s.autoSummarizeThreshold * contextWindow then
        jsSliceLast trimmedHistory 10
      else
        jsSliceLast trimmedHistory s.maxHistoryMessages
    else trimmedHistory
  truncMapGo trimmedHistory.length 0 trimmedHistory

/-- The part of the parsed model response the agent loop consumes:
`{stop_reason, content}`. -/
structure ModelResponse where
  stop_reason : String
  content : List ContentBlock
deriving DecidableEq, Repr

instance : Inhabited ModelResponse := ⟨⟨"", []⟩⟩

/-! ## RequestClient (`callClaude`, `src/main.ts:727`)

The HTTP transport is the external collaborator: one call of `requestUrl`
per attempt.  A run of `callClaude` is therefore parametrised by the
sequence of HTTP responses the endpoint would return, indexed by the attempt
number (1-based, as in the source). -/

/-- The `{type, message}` object found at `errorData.error` when the error
body carries one.  `some` models a truthy `errorData.error`. -/
structure ApiErrorBody where
  errType : Option String := none
  errMessage : Option String := none
deriving DecidableEq, Repr

/-- What one `requestUrl` round-trip yields, after JSON parsing: the status,
the parsed error body (when any), the raw text, the `retry-after` header and
(on success) the parsed model response.  `errorBody` models a truthy
`errorData.error`, `topMessage` a present `errorData.message`. -/
structure HttpResponse where
  status : Nat
  errorBody : Option ApiErrorBody := none
  topMessage : Option String := none
  text : String := ""
  retryAfter : Option String := none
  json : ModelResponse := default
deriving Repr

/-- `JSON.stringify(errorData.error)` for the fallback message. -/
def stringifyErr (e : ApiErrorBody) : String :=
  "\x7b" ++
    (match e.errType with
     | some t => "\"type\":\"" ++ t ++ "\""
     | none => "") ++
    (match e.errType, e.errMessage with
     | some _, some _ => ","
     | _, _ => "") ++
    (match e.errMessage with
     | some m => "\"message\":\"" ++ m ++ "\""
     | none => "") ++
  "\x7d"

/-- The `errorMessage` computed at `src/main.ts:799-812`: the error body's
message when truthy, else `JSON.stringify` of the error body, else the top
level `message`, else the raw text, else `'Unknown error'`. -/
def extractErrorMessage (r : HttpResponse) : String :=
  match r.errorBody with
  | some e =>
    match e.errMessage with
    | some m => if m = "" then stringifyErr e else m
    | none => stringifyErr e
  | none =>
    match r.topMessage with
    | some m =>
      if m = "" then (if r.text = "" then "Unknown error" else r.text) else m
    | none => if r.text = "" then "Unknown error" else r.text

/-- The `errorType` computed at `src/main.ts:800-807`:
`errorData.error.type || 'unknown'` when an error body is present, else the
initial `'unknown'`. -/
def extractErrorType (r : HttpResponse) : String :=
  match r.errorBody with
  | some e =>
    match e.errType with
    | some t => if t = "" then "unknown" else t
    | none => "unknown"
  | none => "unknown"

/-- The classified error string built at `src/main.ts:834-844`:
`Claude API Error (status) [type] (Retry after: Ns): message`, with the
type bracket guarded by truthiness of `errorType` and the retry-after
parenthesis by truthiness of the header value. -/
def detailedError (r : HttpResponse) : String :=
  let errorType := extractErrorType r
  let errorMessage := extractErrorMessage r
  let base := "Claude API Error (" ++ toString r.status ++ ")"
  let base := if errorType ≠ "" then base ++ " [" ++ errorType ++ "]" else base
  let base :=
    match r.retryAfter with
    | some ra => if ra ≠ "" then base ++ " (Retry after: " ++ ra ++ "s)" else base
    | none => base
  base ++ ": " ++ errorMessage

/-- Outcome of `callClaude`: the parsed response data, or the thrown
classified error. -/
inductive CallResult
  | success (data : ModelResponse)
  | failure (msg : String)
deriving DecidableEq, Repr

/-- `const maxRetries = 3`. -/
def maxRetries : Nat := 3

/-- `const retryDelays = [1000, 2000, 4000]`. -/
def retryDelays : List Nat := [1000, 2000, 4000]

/-- The recursive `makeRequest(attemptNumber)` of `src/main.ts:764`.  Besides
the result it returns the retry trace: the `(attemptNumber, delay)` pairs at
which `onRetry` was invoked and the corresponding backoff delay awaited, in
order.  The recursion depth is bounded by the `attemptNumber <= maxRetries`
guard; the structural `fuel` argument makes that bound explicit and is never
exhausted when starting from attempt 1 with fuel `maxRetries + 1`. -/
def makeRequest (responses : Nat → HttpResponse) :
    Nat → Nat → CallResult × List (Nat × Nat)
  | 0, attemptNumber => (.failure (detailedError (responses attemptNumber)), [])
  | fuel + 1, attemptNumber =>
    let response := responses attemptNumber
    if response.status ≠ 200 then
      if response.status = 529 ∧ attemptNumber ≤ maxRetries then
        let delay := (retryDelays.get? (attemptNumber - 1)).getD 0
        let rec_ := makeRequest responses fuel (attemptNumber + 1)
        (rec_.1, (attemptNumber, delay) :: rec_.2)
      else
        (.failure (detailedError response), [])
    else
      (.success response.json, [])

/-- `callClaude`'s retry loop entry point: `makeRequest(1)`. -/
def callClaude (responses : Nat → HttpResponse) : CallResult × List (Nat × Nat) :=
  makeRequest responses (maxRetries + 1) 1

/-! ## ConversationStore (`saveCurrentConversation`, `src/main.ts:315`) -/

/-- `interface SavedConversation` of `src/main.ts`. -/
structure SavedConversation where
  id : String
  name : String
  timestamp : Nat
  messages : List MessageParam
  summary : String
deriving DecidableEq, Repr

/-- The descending-timestamp order of the comparator
`(a, b) => b.timestamp - a.timestamp`. -/
def tsGE (a b : SavedConversation) : Prop := b.timestamp ≤ a.timestamp

instance : DecidableRel tsGE := fun a b => Nat.decLe b.timestamp a.timestamp

/-- `savedConversations.sort((a, b) => b.timestamp - a.timestamp)`:
JavaScript's sort is stable and the comparator induces the total preorder
`tsGE`, so the result is the (unique) stable descending sort, here realised
by insertion sort. -/
def sortByTimestampDesc (l : List SavedConversation) : List SavedConversation :=
  l.insertionSort tsGE

/-- `saveCurrentConversation(messages, summary)` of `src/main.ts:315`,
parametrised by the ambient mutable state and the two generated values
(`generateConversationId`'s fresh id and `generateConversationName`'s name)
plus `Date.now()`.  Returns the new `savedConversations` array and the new
`currentConversationId`. -/
def saveCurrentConversation (autoSaveConversations : Bool)
    (savedConversations : List SavedConversation) (currentConversationId : String)
    (freshId : String) (convName : String) (now : Nat)
    (messages : List MessageParam) (summary : String) :
    List SavedConversation × String :=
  if autoSaveConversations = false ∨ messages = [] then
    (savedConversations, currentConversationId)
  else
    let conversationId :=
      if currentConversationId = "" then freshId else currentConversationId
    let existingIndex := savedConversations.findIdx? (fun c => c.id == conversationId)
    let conversation : SavedConversation :=
      ⟨conversationId, convName, now, messages, summary⟩
    let saved1 : List SavedConversation :=
      match existingIndex with
      | some i => savedConversations.set i conversation
      | none => savedConversations ++ [conversation]
    let saved2 :=
      if saved1.length > 10 then (sortByTimestampDesc saved1).take 10 else saved1
    (saved2, conversationId)

/-! ## AgentLoop (the tool-use `while` loop of `sendMessage`,
`src/main.ts:1739-1909`)

External collaborators are injected: `model` maps the history actually sent
to the model's response (the deterministic environment of one run),
`execTool` is `executeTool(name, input)`, and `stopFlag` gives the value of
the mutable `shouldStop` field at its successive reads (the field is set
asynchronously by the user; read `k` — 0-based — observes `stopFlag k`). -/

structure LoopEnv where
  model : List MessageParam → ModelResponse
  execTool : Option String → Option String → String
  stopFlag : Nat → Bool

/-- `let maxIterations = 10`. -/
def maxIterations : Nat := 10

/-- The `tool_result` block built for one executed `tool_use` block:
`{type: 'tool_result', tool_use_id: block.id, content: result}`. -/
def mkToolResult (b : ContentBlock) (result : String) : ContentBlock :=
  { type := BlockType.tool_result, tool_use_id := b.id, content := some result }

/-- The `for (const block of response.content)` execution loop: runs the
executor on each `tool_use` block, in content order, collecting the
`tool_result` blocks in that same order. -/
def collectToolResults (env : LoopEnv) : List ContentBlock → List ContentBlock
  | [] => []
  | b :: rest =>
    if b.type = BlockType.tool_use then
      mkToolResult b (env.execTool b.name b.input) :: collectToolResults env rest
    else collectToolResults env rest

/-- The truncated-response notice surfaced on `stop_reason === 'max_tokens'`. -/
def truncatedNotice (maxTokensSetting : Nat) : String :=
  "⚠️ **Response truncated** - Hit max output token limit. " ++
    "Type \"continue\" to resume, or increase Max Output Tokens in settings (currently: " ++
    toString maxTokensSetting ++ ")."

/-- One iteration's branching on `response.stop_reason`
(`src/main.ts:1770-1890`): the new history, the new `continueLoop` and the
notices surfaced, or the thrown unexpected-stop-reason error. -/
inductive StepOutcome
  | ok (history : List MessageParam) (continueLoop : Bool) (notices : List String)
  | threw (msg : String)
deriving Repr

def stepBody (env : LoopEnv) (maxTokensSetting : Nat)
    (history : List MessageParam) (r : ModelResponse) : StepOutcome :=
  if r.stop_reason = "end_turn" then
    .ok (history ++ [⟨Role.assistant, .blocks r.content⟩]) false []
  else if r.stop_reason = "tool_use" then
    .ok (history ++
          [⟨Role.assistant, .blocks r.content⟩,
           ⟨Role.user, .blocks (collectToolResults env r.content)⟩]) true []
  else if r.stop_reason = "max_tokens" then
    let hasToolUse := r.content.any (fun b => b.type = BlockType.tool_use)
    let history' :=
      if hasToolUse then
        history ++
          [⟨Role.assistant, .blocks r.content⟩,
           ⟨Role.user, .blocks (collectToolResults env r.content)⟩]
      else
        history ++ [⟨Role.assistant, .blocks r.content⟩]
    .ok history' false [truncatedNotice maxTokensSetting]
  else
    .threw ("Unexpected stop reason: " ++ r.stop_reason)

/-- The observable state threaded through the loop: the conversation
history, the iteration counter, the trace of histories sent to the model
(one per `callClaude` call, in order), the surfaced notices, and the number
of reads of the `shouldStop` flag so far. -/
structure LoopState where
  history : List MessageParam
  iterations : Nat
  requests : List (List MessageParam)
  notices : List String
  stopChecks : Nat
deriving Repr

/-- How the `while` loop ended: its condition became false, or the body
threw (unexpected stop reason). -/
inductive LoopExit
  | condFalse
  | threw (msg : String)
deriving DecidableEq, Repr

/-- The `while (continueLoop && iterations < maxIterations && !this.shouldStop)`
loop (`src/main.ts:1746`).  `&&` short-circuits, so the flag is read exactly
when the first two conjuncts hold — once per iteration, between the previous
iteration's history mutation and the next model call.  The loop body runs at
most `maxIterations` times thanks to the `iterations < maxIterations`
conjunct; the structural `fuel` makes that bound explicit and is never
exhausted when starting from `iterations = 0` with fuel `maxIterations + 1`. -/
def runLoop (env : LoopEnv) (s : Settings) :
    Nat → Bool → LoopState → LoopState × LoopExit
  | 0, _, st => (st, .condFalse)
  | fuel + 1, continueLoop, st =>
    if continueLoop = true ∧ st.iterations < maxIterations then
      if env.stopFlag st.stopChecks then
        ({ st with stopChecks := st.stopChecks + 1 }, .condFalse)
      else
        match stepBody env s.maxTokens st.history
            (env.model (truncateToolResults s st.history)) with
        | .ok history' continueLoop' notices' =>
          runLoop env s fuel continueLoop'
            { history := history',
              iterations := st.iterations + 1,
              requests := st.requests ++ [truncateToolResults s st.history],
              notices := st.notices ++ notices',
              stopChecks := st.stopChecks + 1 }
        | .threw m =>
          ({ st with iterations := st.iterations + 1,
                     requests := st.requests ++ [truncateToolResults s st.history],
                     stopChecks := st.stopChecks + 1 }, .threw m)
    else (st, .condFalse)

/-- The result of one full `sendMessage` turn past the loop: the final
state, how the loop ended, and the two post-loop observations
(`iterations >= maxIterations` notice, and the `shouldStop` re-read at
`src/main.ts:1904` that surfaces the stopped-by-user message).  The
post-loop flag read is counted like the in-loop ones. -/
structure TurnResult where
  final : LoopState
  exit : LoopExit
  maxIterationsNotice : Bool
  stoppedByUser : Bool
deriving Repr

/-- The loop of `sendMessage` from its entry (`continueLoop = true`,
`iterations = 0`, `shouldStop` freshly reset) through the post-loop checks.
On a thrown error control transfers to the `catch` block, which skips both
post-loop checks. -/
def sendMessageLoop (env : LoopEnv) (s : Settings) (h0 : List MessageParam) : TurnResult :=
  match runLoop env s (maxIterations + 1) true
      { history := h0, iterations := 0, requests := [], notices := [], stopChecks := 0 } with
  | (st, .threw m) => ⟨st, .threw m, false, false⟩
  | (st, .condFalse) =>
    ⟨{ st with stopChecks := st.stopChecks + 1 }, .condFalse,
      decide (st.iterations ≥ maxIterations), env.stopFlag st.stopChecks⟩

/-! ## Explicit-heap model of `truncateToolResults`

JavaScript message and block objects live on a heap and the caller's
`conversationHistory` is an array of references into it.  To state that
preparing the outgoing history never mutates the stored conversation, the
same truncation code is embedded once more over an explicit heap: message
and block cells are addressed by allocation order, existing cells are never
written, and the spreads `{ ...msg, content: ... }` / `{ ...block,
content: ... }` allocate fresh cells.  `derefMsg` reads a message reference
back into the pure data model. -/

abbrev Addr := Nat

/-- The `content` field of a message object on the heap: a string, or an
array of references to block cells. -/
inductive HContent
  | str (s : String)
  | blocks (bs : List Addr)
deriving DecidableEq, Repr

/-- A message cell. -/
structure HeapMsg where
  role : Role
  content : HContent
deriving DecidableEq, Repr

/-- The heap: message cells and block cells, addressed by position. -/
structure Heap where
  msgCells : List HeapMsg
  blockCells : List ContentBlock
deriving DecidableEq, Repr

def lookupMsg (h : Heap) (a : Addr) : HeapMsg :=
  (h.msgCells[a]?).getD ⟨Role.user, .str ""⟩

def lookupBlock (h : Heap) (a : Addr) : ContentBlock :=
  (h.blockCells[a]?).getD { type := BlockType.text }

/-- Reading a message reference back into the pure data model. -/
def derefMsg (h : Heap) (a : Addr) : MessageParam :=
  let m := lookupMsg h a
  match m.content with
  | .str s => ⟨m.role, .str s⟩
  | .blocks bs => ⟨m.role, .blocks (bs.map (lookupBlock h))⟩

def allocMsg (h : Heap) (m : HeapMsg) : Heap × Addr :=
  ({ h with msgCells := h.msgCells ++ [m] }, h.msgCells.length)

def allocBlock (h : Heap) (b : ContentBlock) : Heap × Addr :=
  ({ h with blockCells := h.blockCells ++ [b] }, h.blockCells.length)

/-- Block references reachable from a message cell. -/
def HeapMsg.blockAddrs : HeapMsg → List Addr
  | ⟨_, .str _⟩ => []
  | ⟨_, .blocks bs⟩ => bs

/-- A message reference is valid when it hits a cell and every block
reference in that cell hits a cell too. -/
def Heap.ValidMsg (h : Heap) (a : Addr) : Prop :=
  a < h.msgCells.length ∧ ∀ b ∈ (lookupMsg h a).blockAddrs, b < h.blockCells.length

instance (h : Heap) (a : Addr) : Decidable (h.ValidMsg a) := by
  unfold Heap.ValidMsg; infer_instance

/-- `h'` is obtained from `h` by allocations only: old cells are intact. -/
def Heap.Extends (h' h : Heap) : Prop :=
  h.msgCells <+: h'.msgCells ∧ h.blockCells <+: h'.blockCells

/-- The pruning loop over references: all decisions are reads. -/
def pruneGoH (heap : Heap) (len : Nat) : Nat → List Addr → List Addr
  | _, [] => []
  | i, a :: rest =>
    if keepMessage len i (derefMsg heap a) then a :: pruneGoH heap len (i + 1) rest
    else pruneGoH heap len (i + 1) rest

/-- `smartPruneHistory` over references: builds a new array of the same
references, allocating and writing nothing. -/
def smartPruneHistoryH (s : Settings) (heap : Heap) (history : List Addr) : List Addr :=
  if s.enableSmartPruning then pruneGoH heap history.length 0 history else history

/-- Per-block truncation over the heap: an untouched block keeps its
reference; a truncated one is a freshly allocated copy
(`{ ...block, content: ... }`). -/
def truncBlockH (heap : Heap) (a : Addr) : Heap × Addr :=
  let b := lookupBlock heap a
  match b.content with
  | some c =>
    if b.type = BlockType.tool_result ∧ c ≠ "" ∧ jsLength c > MAX_TOOL_RESULT_LENGTH then
      allocBlock heap
        { b with content := some (jsSubstring c MAX_TOOL_RESULT_LENGTH ++ toolResultMarker) }
    else (heap, a)
  | none => (heap, a)

/-- `msg.content.map(block => ...)` over the heap. -/
def truncBlocksH (heap : Heap) : List Addr → Heap × List Addr
  | [] => (heap, [])
  | a :: rest =>
    let res1 := truncBlockH heap a
    let res2 := truncBlocksH res1.1 rest
    (res2.1, res1.2 :: res2.2)

/-- Per-message truncation over the heap: for an old message with block
content, `.map` always builds a new blocks array and `{ ...msg, content }`
a new message cell; a truncated old assistant text likewise becomes a new
cell; everything else keeps its reference. -/
def truncMsgH (heap : Heap) (len i : Nat) (a : Addr) : Heap × Addr :=
  if len - 3 ≤ i then (heap, a)
  else
    let m := lookupMsg heap a
    match m.content with
    | .blocks bs =>
      let res1 := truncBlocksH heap bs
      allocMsg res1.1 ⟨m.role, .blocks res1.2⟩
    | .str c =>
      if jsLength c > MAX_TEXT_LENGTH ∧ m.role = Role.assistant then
        allocMsg heap ⟨m.role, .str (jsSubstring c MAX_TEXT_LENGTH ++ textMarker)⟩
      else (heap, a)

/-- The final `.map((msg, index) => ...)` over the heap. -/
def truncMapGoH (len : Nat) : Heap → Nat → List Addr → Heap × List Addr
  | heap, _, [] => (heap, [])
  | heap, i, a :: rest =>
    let res1 := truncMsgH heap len i a
    let res2 := truncMapGoH len res1.1 (i + 1) rest
    (res2.1, res1.2 :: res2.2)

/-- `truncateToolResults` over the heap, mirroring the pure embedding
branch for branch; all branch conditions are reads through `derefMsg`. -/
def truncateToolResultsH (s : Settings) (heap : Heap) (history : List Addr) :
    Heap × List Addr :=
  let trimmedHistory := smartPruneHistoryH s heap history
  let trimmedHistory :=
    if trimmedHistory.length > s.maxHistoryMessages then
      let tokensUsed := estimateHistoryTokens (trimmedHistory.map (derefMsg heap))
      if tokensUsed * 100 > s.autoSummarizeThreshold * getModelContextWindow then
        jsSliceLast trimmedHistory 10
      else
        jsSliceLast trimmedHistory s.maxHistoryMessages
    else trimmedHistory
  truncMapGoH trimmedHistory.length heap 0 trimmedHistory

/-! ## Shape of `smartPruneHistory` -/

instance : Inhabited MessageParam := ⟨⟨Role.user, .str ""⟩⟩

/-- The index-free keep decision applied to messages outside the recent
window of the pruning loop. -/
def lowKeep (m : MessageParam) : Bool :=
  match m.content with
  | .str c => !(isAcknowledgment (jsToLower c))
  | .blocks _ => true

theorem keepMessage_of_le {len i : Nat} (h : len - 5 ≤ i) (m : MessageParam) :
    keepMessage len i m = true := by
  simp [keepMessage, h]

theorem keepMessage_of_lt {len i : Nat} (h : ¬(len - 5 ≤ i)) (m : MessageParam) :
    keepMessage len i m = lowKeep m := by
  rw [keepMessage, if_neg h]; rfl

theorem pruneGo_of_le (len : Nat) :
    ∀ (l : List MessageParam) (i : Nat), len - 5 ≤ i → pruneGo len i l = l
  | [], _, _ => rfl
  | m :: rest, i, h => by
    rw [pruneGo, if_pos (keepMessage_of_le h m),
      pruneGo_of_le len rest (i + 1) (by omega)]

/-- The pruning loop is a filter on the old part and the identity on the
recent window. -/
theorem pruneGo_eq (len : Nat) :
    ∀ (l : List MessageParam) (i : Nat),
      pruneGo len i l =
        (l.take (len - 5 - i)).filter lowKeep ++ l.drop (len - 5 - i)
  | [], i => by simp [pruneGo]
  | m :: rest, i => by
    by_cases h : len - 5 ≤ i
    · have h0 : len - 5 - i = 0 := by omega
      rw [h0]
      simpa using pruneGo_of_le len (m :: rest) i h
    · have hk : len - 5 - i = (len - 5 - (i + 1)) + 1 := by omega
      rw [pruneGo, keepMessage_of_lt h, hk, List.take_succ_cons, List.drop_succ_cons,
        pruneGo_eq len rest (i + 1)]
      by_cases hl : lowKeep m = true
      · rw [if_pos hl, List.filter_cons_of_pos hl]; rfl
      · rw [if_neg hl, List.filter_cons_of_neg (by simpa using hl)]

theorem smartPruneHistory_eq (s : Settings) (h : List MessageParam)
    (hs : s.enableSmartPruning = true) :
    smartPruneHistory s h =
      (h.take (h.length - 5)).filter lowKeep ++ h.drop (h.length - 5) := by
  rw [smartPruneHistory, if_pos hs, pruneGo_eq]
  simp

/-! ## Claim C6: what pruning removes -/

/-- The spec-side low-value test, following the spec's words: a
string-content message that is acknowledgment-only (exact matches such as
"ok", "thanks") or shorter than the 10-character minimum; block-content
messages are never low value. -/
def specLowValue (m : MessageParam) : Bool :=
  match m.content with
  | .str c => c = "ok" || c = "thanks" || decide (jsLength c < 10)
  | .blocks _ => false

theorem isAcknowledgment_eq_length (s : String) :
    isAcknowledgment s = decide (jsLength s < 10) := by
  by_cases h : jsLength s < 10
  · simp [isAcknowledgment, h]
  · have h1 : ¬(s = "ok") := by intro e; rw [e] at h; exact h (by decide)
    have h2 : ¬(s = "thanks") := by intro e; rw [e] at h; exact h (by decide)
    have h3 : ¬(s = "thank you") := by intro e; rw [e] at h; exact h (by decide)
    have h4 : ¬(s = "got it") := by intro e; rw [e] at h; exact h (by decide)
    simp [isAcknowledgment, h, h1, h2, h3, h4]

theorem lowKeep_eq_not_specLowValue (m : MessageParam) :
    lowKeep m = !specLowValue m := by
  obtain ⟨role, content⟩ := m
  cases content with
  | blocks bs => rfl
  | str c =>
    rw [show lowKeep ⟨role, .str c⟩ = !(isAcknowledgment (jsToLower c)) from rfl,
      isAcknowledgment_eq_length, jsLength_toLower]
    by_cases h : jsLength c < 10
    · simp [specLowValue, h]
    · have h1 : ¬(c = "ok") := by intro e; rw [e] at h; exact h (by decide)
      have h2 : ¬(c = "thanks") := by intro e; rw [e] at h; exact h (by decide)
      simp [specLowValue, h, h1, h2]

/-- Claim C6: with smart pruning enabled, `smartPruneHistory` keeps the last
5 messages unconditionally, and from the remainder removes exactly the
string-content messages that are acknowledgment-only or shorter than the
10-character minimum (block-content messages are never removed), preserving
the relative order of kept messages (the result is a sublist of the input). -/
theorem smartPruneHistory_correct (s : Settings) (history : List MessageParam)
    (hs : s.enableSmartPruning = true) :
    smartPruneHistory s history =
      (history.take (history.length - 5)).filter (fun m => !specLowValue m) ++
        history.drop (history.length - 5) ∧
    (smartPruneHistory s history).Sublist history := by
  have hchar := smartPruneHistory_eq s history hs
  have hfun : lowKeep = (fun m => !specLowValue m) := funext lowKeep_eq_not_specLowValue
  constructor
  · rw [hchar, hfun]
  · rw [hchar]
    have hsub : ((history.take (history.length - 5)).filter lowKeep ++
        history.drop (history.length - 5)).Sublist
        (history.take (history.length - 5) ++ history.drop (history.length - 5)) :=
      List.Sublist.append (List.filter_sublist _) (List.Sublist.refl _)
    rw [List.take_append_drop] at hsub
    exact hsub

/-- A concrete pruning instance for `smartPruneHistory_correct`: seven
messages, of which the two old low-value ones are removed. -/
def c6History : List MessageParam :=
  [⟨Role.user, .str "ok"⟩,
   ⟨Role.assistant, .str "here is a long enough answer"⟩,
   ⟨Role.user, .blocks [{ type := BlockType.tool_result, tool_use_id := some "a",
                          content := some "r" }]⟩,
   ⟨Role.user, .str "thanks"⟩,
   ⟨Role.user, .str "ok"⟩,
   ⟨Role.user, .str "hm"⟩,
   ⟨Role.assistant, .str "short"⟩,
   ⟨Role.user, .str "got it"⟩]

theorem smartPruneHistory_correct_witness :
    smartPruneHistory {} c6History =
      (c6History.take (c6History.length - 5)).filter (fun m => !specLowValue m) ++
        c6History.drop (c6History.length - 5) ∧
    (smartPruneHistory {} c6History).Sublist c6History :=
  smartPruneHistory_correct {} c6History rfl

/-! ## Claim C1: the tool_use / tool_result pairing across truncation -/

/-- The message carries a `tool_use` block with id `x`. -/
def hasToolUse (m : MessageParam) (x : String) : Bool :=
  match m.content with
  | .str _ => false
  | .blocks bs => bs.any (fun b => b.type == BlockType.tool_use && b.id == some x)

/-- The message carries a `tool_result` block answering id `x`. -/
def hasToolResult (m : MessageParam) (x : String) : Bool :=
  match m.content with
  | .str _ => false
  | .blocks bs => bs.any (fun b => b.type == BlockType.tool_result && b.tool_use_id == some x)

def containsToolUse (l : List MessageParam) (x : String) : Bool :=
  l.any (hasToolUse · x)

def containsToolResult (l : List MessageParam) (x : String) : Bool :=
  l.any (hasToolResult · x)

/-- The protocol invariant on histories (spec §3): every message carrying a
`tool_use` block with id `x` is answered by a `tool_result` block with the
same id in the same or a later message. -/
def answeredIdx (l : List MessageParam) (x : String) : Prop :=
  ∀ i < l.length, hasToolUse (l.getD i default) x = true →
    ∃ j < l.length, i ≤ j ∧ hasToolResult (l.getD j default) x = true

instance (l : List MessageParam) (x : String) : Decidable (answeredIdx l x) := by
  unfold answeredIdx; infer_instance

/-- Split form of the invariant, convenient for induction. -/
def answered (l : List MessageParam) (x : String) : Prop :=
  ∀ l₁ m l₂, l = l₁ ++ m :: l₂ → hasToolUse m x = true →
    ∃ m' ∈ m :: l₂, hasToolResult m' x = true

theorem answered_of_answeredIdx {l : List MessageParam} {x : String}
    (H : answeredIdx l x) : answered l x := by
  intro l₁ m l₂ heq hm
  subst heq
  have hi : l₁.length < (l₁ ++ m :: l₂).length := by simp
  have hget : (l₁ ++ m :: l₂).getD l₁.length default = m := by
    rw [List.getD_eq_getElem?_getD, List.getElem?_append_right (Nat.le_refl _)]
    simp
  obtain ⟨j, hj, hij, hres⟩ := H l₁.length hi (by rw [hget]; exact hm)
  have hlt : j - l₁.length < (m :: l₂).length := by
    simp only [List.length_append, List.length_cons] at hj
    simp only [List.length_cons]
    omega
  refine ⟨(m :: l₂).get ⟨j - l₁.length, hlt⟩, List.get_mem _ _ _, ?_⟩
  have hval : (l₁ ++ m :: l₂).getD j default = (m :: l₂).get ⟨j - l₁.length, hlt⟩ := by
    rw [List.getD_eq_getElem?_getD, List.getElem?_append_right hij,
      List.getElem?_eq_getElem hlt]
    rfl
  rw [hval] at hres
  exact hres

theorem answered_tail {m : MessageParam} {l : List MessageParam} {x : String}
    (H : answered (m :: l) x) : answered l x := by
  intro l₁ m' l₂ heq hm'
  exact H (m :: l₁) m' l₂ (by rw [heq]; rfl) hm'

theorem answered_drop {l : List MessageParam} {x : String} (d : Nat)
    (H : answered l x) : answered (l.drop d) x := by
  intro l₁ m l₂ heq hm
  exact H (l.take d ++ l₁) m l₂
    (by rw [List.append_assoc, ← heq, List.take_append_drop]) hm

theorem answered_jsSliceLast {l : List MessageParam} {x : String} (k : Nat)
    (H : answered l x) : answered (jsSliceLast l k) x := by
  unfold jsSliceLast
  split
  · exact H
  · exact answered_drop _ H

/-- Dropping only messages without tool blocks preserves the invariant. -/
theorem answered_filter_append {x : String} (p : MessageParam → Bool)
    (hp : ∀ m, ¬(p m = true) → hasToolUse m x = false ∧ hasToolResult m x = false) :
    ∀ (A B : List MessageParam), answered (A ++ B) x → answered (A.filter p ++ B) x
  | [], _ => fun H => by simpa using H
  | a :: A, B => by
    intro H
    by_cases hpa : p a = true
    · rw [List.filter_cons_of_pos hpa]
      intro l₁ m l₂ heq hm
      cases l₁ with
      | nil =>
        simp only [List.nil_append, List.cons.injEq] at heq
        obtain ⟨rfl, rfl⟩ := heq
        obtain ⟨m', hm'mem, hm'res⟩ := H [] a (A ++ B) rfl hm
        rcases List.mem_cons.mp hm'mem with rfl | hm'mem
        · exact ⟨m', List.mem_cons_self _ _, hm'res⟩
        · rcases List.mem_append.mp hm'mem with hA | hB
          · have hpm' : p m' = true := by
              by_contra hc
              exact absurd hm'res (by simp [(hp m' hc).2])
            exact ⟨m', List.mem_cons_of_mem _
              (List.mem_append_left _ (List.mem_filter.mpr ⟨hA, hpm'⟩)), hm'res⟩
          · exact ⟨m', List.mem_cons_of_mem _ (List.mem_append_right _ hB), hm'res⟩
      | cons a' l₁' =>
        simp only [List.cons_append, List.cons.injEq] at heq
        obtain ⟨rfl, heq⟩ := heq
        exact answered_filter_append p hp A B (answered_tail H) l₁' m l₂ heq hm
    · rw [List.filter_cons_of_neg (by simpa using hpa)]
      exact answered_filter_append p hp A B (answered_tail H)

theorem lowKeep_false_no_blocks {m : MessageParam} (h : ¬(lowKeep m = true)) (x : String) :
    hasToolUse m x = false ∧ hasToolResult m x = false := by
  obtain ⟨role, content⟩ := m
  cases content with
  | str c => exact ⟨rfl, rfl⟩
  | blocks bs => exact absurd rfl h

theorem answered_smartPruneHistory (s : Settings) {l : List MessageParam} {x : String}
    (H : answered l x) : answered (smartPruneHistory s l) x := by
  by_cases hs : s.enableSmartPruning = true
  · rw [smartPruneHistory_eq s l hs]
    refine answered_filter_append lowKeep (fun m h => lowKeep_false_no_blocks h x) _ _ ?_
    rw [List.take_append_drop]
    exact H
  · rw [smartPruneHistory, if_neg hs]
    exact H

/-- `truncBlock` never changes a block's tag, id, or answered id. -/
theorem truncBlock_skeleton (b : ContentBlock) :
    (truncBlock b).type = b.type ∧ (truncBlock b).id = b.id ∧
      (truncBlock b).tool_use_id = b.tool_use_id := by
  unfold truncBlock
  cases b.content <;> dsimp only <;> [skip; split] <;> simp

theorem hasToolUse_truncMsg (len i : Nat) (m : MessageParam) (x : String) :
    hasToolUse (truncMsg len i m) x = hasToolUse m x := by
  unfold truncMsg
  split
  · rfl
  · obtain ⟨role, content⟩ := m
    cases content with
    | blocks bs =>
      show (bs.map truncBlock).any _ = bs.any _
      rw [List.any_map]
      have hfun : ((fun b : ContentBlock => b.type == BlockType.tool_use && b.id == some x) ∘
          truncBlock) =
          (fun b : ContentBlock => b.type == BlockType.tool_use && b.id == some x) := by
        funext b
        obtain ⟨h1, h2, _⟩ := truncBlock_skeleton b
        simp [Function.comp, h1, h2]
      rw [hfun]
    | str c =>
      dsimp only
      split <;> rfl

theorem hasToolResult_truncMsg (len i : Nat) (m : MessageParam) (x : String) :
    hasToolResult (truncMsg len i m) x = hasToolResult m x := by
  unfold truncMsg
  split
  · rfl
  · obtain ⟨role, content⟩ := m
    cases content with
    | blocks bs =>
      show (bs.map truncBlock).any _ = bs.any _
      rw [List.any_map]
      have hfun : ((fun b : ContentBlock => b.type == BlockType.tool_result &&
          b.tool_use_id == some x) ∘ truncBlock) =
          (fun b : ContentBlock => b.type == BlockType.tool_result &&
            b.tool_use_id == some x) := by
        funext b
        obtain ⟨h1, _, h3⟩ := truncBlock_skeleton b
        simp [Function.comp, h1, h3]
      rw [hfun]
    | str c =>
      dsimp only
      split <;> rfl

theorem containsToolUse_truncMapGo (len : Nat) (x : String) :
    ∀ (l : List MessageParam) (i : Nat),
      containsToolUse (truncMapGo len i l) x = containsToolUse l x
  | [], _ => rfl
  | m :: rest, i => by
    simp only [containsToolUse, truncMapGo, List.any_cons]
    rw [hasToolUse_truncMsg]
    have ih := containsToolUse_truncMapGo len x rest (i + 1)
    simp only [containsToolUse] at ih
    rw [ih]

theorem containsToolResult_truncMapGo (len : Nat) (x : String) :
    ∀ (l : List MessageParam) (i : Nat),
      containsToolResult (truncMapGo len i l) x = containsToolResult l x
  | [], _ => rfl
  | m :: rest, i => by
    simp only [containsToolResult, truncMapGo, List.any_cons]
    rw [hasToolResult_truncMsg]
    have ih := containsToolResult_truncMapGo len x rest (i + 1)
    simp only [containsToolResult] at ih
    rw [ih]

theorem answered_key (x : String) (core : List MessageParam) (hc : answered core x)
    (hu : containsToolUse (truncMapGo core.length 0 core) x = true) :
    containsToolResult (truncMapGo core.length 0 core) x = true := by
  rw [containsToolUse_truncMapGo] at hu
  rw [containsToolResult_truncMapGo]
  rw [containsToolUse, List.any_eq_true] at hu
  obtain ⟨m, hmem, hm⟩ := hu
  obtain ⟨l₁, l₂, rfl⟩ := List.append_of_mem hmem
  obtain ⟨m', hm'mem, hm'res⟩ := hc l₁ m l₂ rfl hm
  rw [containsToolResult, List.any_eq_true]
  refine ⟨m', ?_, hm'res⟩
  rcases List.mem_cons.mp hm'mem with rfl | h
  · exact List.mem_append_right _ (List.mem_cons_self _ _)
  · exact List.mem_append_right _ (List.mem_cons_of_mem _ h)

/-- The trimmed history `truncateToolResults` feeds to its final content
truncation map: pruning followed by the hard cap / summarize-split branch. -/
def truncCore (s : Settings) (history : List MessageParam) : List MessageParam :=
  let trimmedHistory := smartPruneHistory s history
  if trimmedHistory.length > s.maxHistoryMessages then
    if estimateHistoryTokens trimmedHistory * 100 >
        s.autoSummarizeThreshold * getModelContextWindow then
      jsSliceLast trimmedHistory 10
    else
      jsSliceLast trimmedHistory s.maxHistoryMessages
  else trimmedHistory

theorem truncateToolResults_eq_core (s : Settings) (history : List MessageParam) :
    truncateToolResults s history =
      truncMapGo (truncCore s history).length 0 (truncCore s history) := rfl

theorem answered_truncCore (s : Settings) {history : List MessageParam} {x : String}
    (h0 : answered history x) : answered (truncCore s history) x := by
  have hP := answered_smartPruneHistory s h0
  unfold truncCore
  dsimp only
  split
  · split
    · exact answered_jsSliceLast _ hP
    · exact answered_jsSliceLast _ hP
  · exact hP

/-- The message carrying the answering `tool_result` for id `x` in the C1
counterexample history. -/
def c1ResultMsg : MessageParam :=
  ⟨Role.user, .blocks [{ type := BlockType.tool_result, tool_use_id := some "x",
                         content := some "result body" }]⟩

/-- The message carrying the `tool_use` block with id `x`. -/
def c1UseMsg : MessageParam :=
  ⟨Role.assistant, .blocks [{ type := BlockType.tool_use, id := some "x",
                              name := some "read_file", input := some "path" }]⟩

/-- A counterexample history for claim C1 as literally stated (universally
over input histories): the answering `tool_result` message precedes its
`tool_use` message, with 20 substantial filler messages in between, so the
hard cap drops the result but keeps the use. -/
def c1History : List MessageParam :=
  c1ResultMsg ::
    ((List.range 20).map (fun i => ⟨Role.user, .str ("filler message number " ++ toString i)⟩) ++
      [c1UseMsg])

/-- Claim C1 as stated (over every input history) fails on the code: with
the default settings, `truncateToolResults` applied to `c1History` retains
the message with the `tool_use` block of id "x" while the input's message
carrying the matching `tool_result` is not retained. -/
theorem truncateToolResults_pairing_cex :
    containsToolUse (truncateToolResults {} c1History) "x" = true ∧
    containsToolResult c1History "x" = true ∧
    containsToolResult (truncateToolResults {} c1History) "x" = false := by
  refine ⟨?_, ?_, ?_⟩ <;> decide

/-- Claim C1, amended with the protocol precondition the rest of the code
maintains (spec §3: every `tool_use` is answered in the same or a later
message): whenever `truncateToolResults` retains a message with a `tool_use`
block of id `x`, it also retains a message carrying the matching
`tool_result` block. -/
theorem truncateToolResults_pairing (s : Settings) (history : List MessageParam)
    (x : String) (hans : answeredIdx history x)
    (huse : containsToolUse (truncateToolResults s history) x = true) :
    containsToolResult (truncateToolResults s history) x = true := by
  have h0 : answered history x := answered_of_answeredIdx hans
  have hc : answered (truncCore s history) x := answered_truncCore s h0
  rw [truncateToolResults_eq_core] at huse ⊢
  exact answered_key x _ hc huse

/-- A well-ordered two-message history for the amended C1 theorem. -/
def c1AnsweredHistory : List MessageParam := [c1UseMsg, c1ResultMsg]

theorem truncateToolResults_pairing_witness :
    answeredIdx c1AnsweredHistory "x" ∧
    containsToolUse (truncateToolResults {} c1AnsweredHistory) "x" = true ∧
    containsToolResult (truncateToolResults {} c1AnsweredHistory) "x" = true :=
  ⟨by decide, by decide,
    truncateToolResults_pairing {} c1AnsweredHistory "x" (by decide) (by decide)⟩

/-! ## Claim C7: idempotence of truncation within budget -/

theorem jsLength_pos_ne_empty {s : String} (h : 0 < jsLength s) : s ≠ "" := by
  intro e
  rw [e] at h
  exact absurd h (by decide)

theorem jsSubstring_append_of_le {s : String} {n : Nat} (h : n ≤ jsLength s) (t : String) :
    jsSubstring (jsSubstring s n ++ t) n = jsSubstring s n := by
  unfold jsSubstring
  rw [data_append]
  show String.mk _ = _
  congr 1
  show ((s.data.take n) ++ t.data).take n = s.data.take n
  exact List.take_left' (by simp [jsLength] at h ⊢; omega)

theorem truncBlock_some (ty : BlockType) (tx id_ nm inp tuid : Option String) (c : String) :
    truncBlock ⟨ty, tx, id_, nm, inp, tuid, some c⟩ =
      if ty = BlockType.tool_result ∧ c ≠ "" ∧ jsLength c > MAX_TOOL_RESULT_LENGTH then
        ⟨ty, tx, id_, nm, inp, tuid,
          some (jsSubstring c MAX_TOOL_RESULT_LENGTH ++ toolResultMarker)⟩
      else ⟨ty, tx, id_, nm, inp, tuid, some c⟩ := rfl

theorem truncBlock_idem (b : ContentBlock) : truncBlock (truncBlock b) = truncBlock b := by
  obtain ⟨ty, tx, id_, nm, inp, tuid, cont⟩ := b
  cases cont with
  | none => rfl
  | some c =>
    rw [truncBlock_some]
    split
    · rename_i hcond
      obtain ⟨hty, -, hlen⟩ := hcond
      rw [truncBlock_some, if_pos, jsSubstring_append_of_le (Nat.le_of_lt hlen)]
      refine ⟨hty, ?_, ?_⟩
      · apply jsLength_pos_ne_empty
        rw [jsLength_append, jsLength_jsSubstring]
        have hm : 0 < jsLength toolResultMarker := by decide
        omega
      · rw [jsLength_append, jsLength_jsSubstring]
        have hm : 0 < jsLength toolResultMarker := by decide
        have hmin : min MAX_TOOL_RESULT_LENGTH (jsLength c) = MAX_TOOL_RESULT_LENGTH := by
          omega
        omega
    · rename_i hcond
      rw [truncBlock_some, if_neg hcond]

theorem truncMsg_blocks (len i : Nat) (role : Role) (bs : List ContentBlock) :
    truncMsg len i ⟨role, .blocks bs⟩ =
      if len - 3 ≤ i then ⟨role, .blocks bs⟩
      else ⟨role, .blocks (bs.map truncBlock)⟩ := rfl

theorem truncMsg_str (len i : Nat) (role : Role) (c : String) :
    truncMsg len i ⟨role, .str c⟩ =
      if len - 3 ≤ i then ⟨role, .str c⟩
      else if jsLength c > MAX_TEXT_LENGTH ∧ role = Role.assistant then
        ⟨role, .str (jsSubstring c MAX_TEXT_LENGTH ++ textMarker)⟩
      else ⟨role, .str c⟩ := rfl

theorem truncMsg_idem (len i : Nat) (m : MessageParam) :
    truncMsg len i (truncMsg len i m) = truncMsg len i m := by
  by_cases hi : len - 3 ≤ i
  · rw [truncMsg, if_pos hi, truncMsg, if_pos hi]
  · obtain ⟨role, content⟩ := m
    cases content with
    | blocks bs =>
      rw [truncMsg_blocks, if_neg hi, truncMsg_blocks, if_neg hi, List.map_map]
      have hfun : bs.map (truncBlock ∘ truncBlock) = bs.map truncBlock :=
        List.map_congr_left fun b _ => truncBlock_idem b
      rw [hfun]
    | str c =>
      rw [truncMsg_str, if_neg hi]
      split
      · rename_i hcond
        obtain ⟨hlen, hrole⟩ := hcond
        rw [truncMsg_str, if_neg hi, if_pos, jsSubstring_append_of_le (Nat.le_of_lt hlen)]
        refine ⟨?_, hrole⟩
        rw [jsLength_append, jsLength_jsSubstring]
        have hm : 0 < jsLength textMarker := by decide
        have hmin : min MAX_TEXT_LENGTH (jsLength c) = MAX_TEXT_LENGTH := by omega
        omega
      · rename_i hcond
        rw [truncMsg_str, if_neg hi, if_neg hcond]

theorem truncMapGo_length (len : Nat) :
    ∀ (l : List MessageParam) (i : Nat), (truncMapGo len i l).length = l.length
  | [], _ => rfl
  | m :: rest, i => by
    rw [truncMapGo, List.length_cons, List.length_cons,
      truncMapGo_length len rest (i + 1)]

theorem truncMapGo_idem (len : Nat) :
    ∀ (l : List MessageParam) (i : Nat),
      truncMapGo len i (truncMapGo len i l) = truncMapGo len i l
  | [], _ => rfl
  | m :: rest, i => by
    rw [truncMapGo, truncMapGo, truncMsg_idem, truncMapGo_idem len rest (i + 1)]

theorem lowKeep_str (role : Role) (c : String) :
    lowKeep ⟨role, .str c⟩ = !(isAcknowledgment (jsToLower c)) := rfl

theorem lowKeep_truncMsg (len i : Nat) {m : MessageParam} (h : lowKeep m = true) :
    lowKeep (truncMsg len i m) = true := by
  by_cases hi : len - 3 ≤ i
  · rw [truncMsg, if_pos hi]; exact h
  · obtain ⟨role, content⟩ := m
    cases content with
    | blocks bs => rw [truncMsg_blocks, if_neg hi]; rfl
    | str c =>
      rw [truncMsg_str, if_neg hi]
      split
      · rename_i hcond
        rw [lowKeep_str, isAcknowledgment_eq_length, jsLength_toLower, jsLength_append,
          jsLength_jsSubstring]
        have hm : 10 ≤ jsLength textMarker := by decide
        have hmin : min MAX_TEXT_LENGTH (jsLength c) = MAX_TEXT_LENGTH := by
          have := hcond.1
          omega
        simp only [Bool.not_eq_true', decide_eq_false_iff_not]
        omega
      · exact h

/-- Messages in the prunable region of the trimmed map all survive another
pruning pass. -/
theorem lowKeep_take_truncMapGo (len : Nat) :
    ∀ (l : List MessageParam) (i : Nat),
      (∀ m ∈ l.take (len - 5 - i), lowKeep m = true) →
      ∀ m ∈ (truncMapGo len i l).take (len - 5 - i), lowKeep m = true
  | [], _, _ => by simp [truncMapGo]
  | p :: rest, i, hl => by
    by_cases h0 : len - 5 - i = 0
    · rw [h0]
      simp
    · obtain ⟨k, hk⟩ : ∃ k, len - 5 - i = k + 1 := ⟨len - 5 - i - 1, by omega⟩
      rw [truncMapGo, hk, List.take_succ_cons]
      intro m hm
      rcases List.mem_cons.mp hm with rfl | hm
      · refine lowKeep_truncMsg len i (hl p ?_)
        rw [hk, List.take_succ_cons]
        exact List.mem_cons_self _ _
      · have hk' : len - 5 - (i + 1) = k := by omega
        refine lowKeep_take_truncMapGo len rest (i + 1) ?_ m (by rw [hk']; exact hm)
        intro m' hm'
        refine hl m' ?_
        rw [hk, List.take_succ_cons]
        exact List.mem_cons_of_mem _ (by rw [← hk']; exact hm')

/-- Every message of the prunable region of a pruned history satisfies the
keep predicate. -/
theorem lowKeep_take_smartPrune (s : Settings) (h : List MessageParam)
    (hs : s.enableSmartPruning = true) :
    ∀ m ∈ (smartPruneHistory s h).take ((smartPruneHistory s h).length - 5),
      lowKeep m = true := by
  rw [smartPruneHistory_eq s h hs]
  set F := (h.take (h.length - 5)).filter lowKeep with hF
  set D := h.drop (h.length - 5) with hD
  have hDlen : D.length = h.length - (h.length - 5) := by rw [hD, List.length_drop]
  by_cases hh : 5 ≤ h.length
  · have hDF : (F ++ D).length - 5 = F.length := by
      rw [List.length_append]
      omega
    rw [hDF, List.take_left]
    intro m hm
    exact (List.mem_filter.mp hm).2
  · have hF0 : F = [] := by
      rw [hF]
      have : h.length - 5 = 0 := by omega
      rw [this]
      rfl
    have : (F ++ D).length - 5 = 0 := by
      rw [List.length_append, hF0]
      simp only [List.length_nil]
      omega
    rw [this]
    simp

theorem pruneGo_eq_self (len : Nat) (l : List MessageParam)
    (hkeep : ∀ m ∈ l.take (len - 5), lowKeep m = true) : pruneGo len 0 l = l := by
  rw [pruneGo_eq]
  simp only [Nat.sub_zero]
  rw [List.filter_eq_self.mpr hkeep, List.take_append_drop]

/-- A trimmed-and-truncated history is a fixed point of pruning. -/
theorem smartPrune_fixpoint (s : Settings) (h : List MessageParam) :
    smartPruneHistory s
        (truncMapGo (smartPruneHistory s h).length 0 (smartPruneHistory s h)) =
      truncMapGo (smartPruneHistory s h).length 0 (smartPruneHistory s h) := by
  by_cases hs : s.enableSmartPruning = true
  · set P := smartPruneHistory s h with hP
    rw [smartPruneHistory, if_pos hs]
    have hlen : (truncMapGo P.length 0 P).length = P.length := truncMapGo_length _ _ _
    rw [hlen]
    refine pruneGo_eq_self P.length (truncMapGo P.length 0 P) ?_
    have base := lowKeep_take_smartPrune s h hs
    rw [← hP] at base
    have := lowKeep_take_truncMapGo P.length P 0
    simp only [Nat.sub_zero] at this
    exact this base
  · rw [smartPruneHistory, if_neg hs]

/-- Claim C7: truncation is idempotent on its own output when the pruned
history is within the message cap: a second `truncateToolResults` pass
returns the first pass's result unchanged (already-appended truncation
markers are reproduced as they are). -/
theorem truncateToolResults_idem (s : Settings) (h : List MessageParam)
    (hcap : (smartPruneHistory s h).length ≤ s.maxHistoryMessages) :
    truncateToolResults s (truncateToolResults s h) = truncateToolResults s h := by
  have hcore1 : truncCore s h = smartPruneHistory s h := by
    unfold truncCore
    dsimp only
    rw [if_neg (by omega)]
  have ht : truncateToolResults s h =
      truncMapGo (smartPruneHistory s h).length 0 (smartPruneHistory s h) := by
    rw [truncateToolResults_eq_core, hcore1]
  have hprune_t : smartPruneHistory s (truncateToolResults s h) =
      truncateToolResults s h := by
    rw [ht]
    exact smartPrune_fixpoint s h
  have htlen : (truncateToolResults s h).length = (smartPruneHistory s h).length := by
    rw [ht]
    exact truncMapGo_length _ _ _
  have hcore2 : truncCore s (truncateToolResults s h) = truncateToolResults s h := by
    unfold truncCore
    dsimp only
    rw [hprune_t, if_neg (by omega)]
  rw [truncateToolResults_eq_core, hcore2, htlen, ht]
  exact truncMapGo_idem _ _ _

/-- A concrete instance for `truncateToolResults_idem`: an over-long tool
result and an over-long old assistant text both get truncated once, and the
second pass reproduces them unchanged. -/
def c7History : List MessageParam :=
  [⟨Role.user, .blocks [{ type := BlockType.tool_result, tool_use_id := some "t",
                          content := some (String.mk (List.replicate 600 'r')) }]⟩,
   ⟨Role.assistant, .str (String.mk (List.replicate 2100 'a'))⟩,
   ⟨Role.user, .str "please continue with the plan"⟩,
   ⟨Role.assistant, .str "continuing with the plan now"⟩,
   ⟨Role.user, .str "show me the final result"⟩,
   ⟨Role.assistant, .str "here is the final result"⟩]

theorem truncateToolResults_idem_witness :
    (smartPruneHistory {} c7History).length ≤ ({} : Settings).maxHistoryMessages ∧
    truncateToolResults {} (truncateToolResults {} c7History) =
      truncateToolResults {} c7History :=
  ⟨by decide, truncateToolResults_idem {} c7History (by decide)⟩

/-! ## Claims C3 and C4: the retry policy of `callClaude` -/

theorem extractErrorType_ne_empty (r : HttpResponse) : extractErrorType r ≠ "" := by
  obtain ⟨st, eb, tm, tx, ra, js⟩ := r
  unfold extractErrorType
  cases eb with
  | none => show ("unknown" : String) ≠ ""; decide
  | some e =>
    obtain ⟨et, em⟩ := e
    cases et with
    | none => show ("unknown" : String) ≠ ""; decide
    | some t =>
      by_cases h0 : t = ""
      · show (if t = "" then "unknown" else t) ≠ ""
        rw [if_pos h0]
        decide
      · show (if t = "" then "unknown" else t) ≠ ""
        rw [if_neg h0]
        exact h0

/-- The retry-after parenthesis of the classified error, when any. -/
def retryPart (r : HttpResponse) : String :=
  match r.retryAfter with
  | some ra => if ra ≠ "" then " (Retry after: " ++ ra ++ "s)" else ""
  | none => ""

theorem detailedError_eq (r : HttpResponse) :
    detailedError r =
      "Claude API Error (" ++ toString r.status ++ ")" ++
        (" [" ++ extractErrorType r ++ "]") ++ retryPart r ++ ": " ++
        extractErrorMessage r := by
  simp only [detailedError, retryPart]
  rw [if_pos (extractErrorType_ne_empty r)]
  cases hra : r.retryAfter with
  | none =>
    apply String.ext
    simp [data_append, data_empty, List.append_assoc]
  | some ra =>
    dsimp only
    by_cases h0 : ra ≠ ""
    · rw [if_pos h0, if_pos h0]
      apply String.ext
      simp [data_append, data_empty, List.append_assoc]
    · rw [if_neg h0, if_neg h0]
      apply String.ext
      simp [data_append, data_empty, List.append_assoc]

theorem substring_infix (pre s post : String) : s.data <:+: (pre ++ s ++ post).data := by
  rw [data_append, data_append]
  exact List.infix_append _ _ _

/-- Claim C3: three consecutive overloaded (529) responses followed by a
success make `callClaude` return the success after exactly three retries,
invoking the retry observer with the configured delays 1s, 2s, 4s in order
before each backoff; a fourth consecutive overloaded response instead makes
the call fail with the terminal classified error, after the same three
retries. -/
theorem callClaude_retry_bound (responses : Nat → HttpResponse) (r4 : ModelResponse) :
    ((responses 1).status = 529 → (responses 2).status = 529 →
      (responses 3).status = 529 → (responses 4).status = 200 →
      (responses 4).json = r4 →
      callClaude responses = (.success r4, [(1, 1000), (2, 2000), (3, 4000)])) ∧
    ((responses 1).status = 529 → (responses 2).status = 529 →
      (responses 3).status = 529 → (responses 4).status = 529 →
      callClaude responses =
        (.failure (detailedError (responses 4)), [(1, 1000), (2, 2000), (3, 4000)])) := by
  constructor
  · intro h1 h2 h3 h4 hjson
    simp [callClaude, makeRequest, maxRetries, retryDelays, h1, h2, h3, h4, hjson]
  · intro h1 h2 h3 h4
    simp [callClaude, makeRequest, maxRetries, retryDelays, h1, h2, h3, h4]

/-- The overloaded response used in the C3 witness. -/
def c3Overloaded : HttpResponse :=
  { status := 529,
    errorBody := some { errType := some "overloaded_error", errMessage := some "Overloaded" } }

/-- The successful response used in the C3 witness. -/
def c3Success : HttpResponse :=
  { status := 200, json := ⟨"end_turn", [{ type := BlockType.text, text := some "hi" }]⟩ }

def c3SuccSeq : Nat → HttpResponse := fun n => if n ≤ 3 then c3Overloaded else c3Success

def c3FailSeq : Nat → HttpResponse := fun _ => c3Overloaded

theorem callClaude_retry_bound_witness :
    callClaude c3SuccSeq = (.success c3Success.json, [(1, 1000), (2, 2000), (3, 4000)]) ∧
    callClaude c3FailSeq =
      (.failure (detailedError (c3FailSeq 4)), [(1, 1000), (2, 2000), (3, 4000)]) :=
  ⟨(callClaude_retry_bound c3SuccSeq c3Success.json).1
      (by decide) (by decide) (by decide) (by decide) (by decide),
    (callClaude_retry_bound c3FailSeq default).2
      (by decide) (by decide) (by decide) (by decide)⟩

/-- Claim C4: on any non-success status other than the overloaded 529 —
rate-limited 429, invalid request, authentication, server errors, anything —
`callClaude` performs no retry (the retry trace is empty) and throws the
classified error, whose message carries the status, the error type, the
retry-after hint when the header is present, and the endpoint's error
message. -/
theorem callClaude_no_retry_terminal (responses : Nat → HttpResponse)
    (hs200 : (responses 1).status ≠ 200) (hs529 : (responses 1).status ≠ 529) :
    callClaude responses = (.failure (detailedError (responses 1)), []) ∧
    (toString (responses 1).status).data <:+: (detailedError (responses 1)).data ∧
    (" [" ++ extractErrorType (responses 1) ++ "]").data <:+:
      (detailedError (responses 1)).data ∧
    (extractErrorMessage (responses 1)).data <:+: (detailedError (responses 1)).data ∧
    (∀ ra, (responses 1).retryAfter = some ra → ra ≠ "" →
      (" (Retry after: " ++ ra ++ "s)").data <:+: (detailedError (responses 1)).data) := by
  refine ⟨?_, ?_, ?_, ?_, ?_⟩
  · simp [callClaude, makeRequest, maxRetries, hs200, hs529]
  · refine ⟨("Claude API Error (").data,
      ((")" ++ (" [" ++ extractErrorType (responses 1) ++ "]") ++ retryPart (responses 1) ++
        ": " ++ extractErrorMessage (responses 1))).data, ?_⟩
    rw [detailedError_eq]
    simp [data_append, List.append_assoc]
  · refine ⟨(("Claude API Error (" ++ toString (responses 1).status ++ ")")).data,
      ((retryPart (responses 1) ++ ": " ++ extractErrorMessage (responses 1))).data, ?_⟩
    rw [detailedError_eq]
    simp [data_append, List.append_assoc]
  · refine ⟨(("Claude API Error (" ++ toString (responses 1).status ++ ")" ++
      (" [" ++ extractErrorType (responses 1) ++ "]") ++ retryPart (responses 1) ++
      ": ")).data, ([]), ?_⟩
    rw [detailedError_eq]
    simp [data_append, List.append_assoc]
  · intro ra hra hne
    have hpart : retryPart (responses 1) = " (Retry after: " ++ ra ++ "s)" := by
      rw [retryPart, hra]
      exact if_pos hne
    refine ⟨(("Claude API Error (" ++ toString (responses 1).status ++ ")" ++
      (" [" ++ extractErrorType (responses 1) ++ "]"))).data,
      ((": " ++ extractErrorMessage (responses 1))).data, ?_⟩
    rw [detailedError_eq, hpart]
    simp [data_append, List.append_assoc]

/-- The rate-limited response used in the C4 witness. -/
def c4RateLimited : HttpResponse :=
  { status := 429,
    errorBody := some { errType := some "rate_limit_error",
                        errMessage := some "Too many requests" },
    retryAfter := some "60" }

def c4Seq : Nat → HttpResponse := fun _ => c4RateLimited

theorem callClaude_no_retry_terminal_witness :
    callClaude c4Seq = (.failure (detailedError (c4Seq 1)), []) ∧
    (" (Retry after: " ++ "60" ++ "s)").data <:+: (detailedError (c4Seq 1)).data :=
  ⟨(callClaude_no_retry_terminal c4Seq (by decide) (by decide)).1,
    (callClaude_no_retry_terminal c4Seq (by decide) (by decide)).2.2.2.2 "60"
      (by decide) (by decide)⟩

/-! ## The agent loop: unfolding lemmas -/

theorem stepBody_end_turn (env : LoopEnv) (mts : Nat) (history : List MessageParam)
    (r : ModelResponse) (hsr : r.stop_reason = "end_turn") :
    stepBody env mts history r =
      .ok (history ++ [⟨Role.assistant, .blocks r.content⟩]) false [] := by
  rw [stepBody, if_pos hsr]

theorem stepBody_tool_use (env : LoopEnv) (mts : Nat) (history : List MessageParam)
    (r : ModelResponse) (hsr : r.stop_reason = "tool_use") :
    stepBody env mts history r =
      .ok (history ++
            [⟨Role.assistant, .blocks r.content⟩,
             ⟨Role.user, .blocks (collectToolResults env r.content)⟩]) true [] := by
  rw [stepBody, if_neg (by rw [hsr]; decide), if_pos hsr]

theorem stepBody_max_tokens (env : LoopEnv) (mts : Nat) (history : List MessageParam)
    (r : ModelResponse) (hsr : r.stop_reason = "max_tokens") :
    stepBody env mts history r =
      .ok (if r.content.any (fun b => b.type = BlockType.tool_use) then
            history ++
              [⟨Role.assistant, .blocks r.content⟩,
               ⟨Role.user, .blocks (collectToolResults env r.content)⟩]
          else history ++ [⟨Role.assistant, .blocks r.content⟩])
        false [truncatedNotice mts] := by
  rw [stepBody, if_neg (by rw [hsr]; decide), if_neg (by rw [hsr]; decide), if_pos hsr]

/-- Exiting the loop when its condition is false leaves the state alone. -/
theorem runLoop_exit (env : LoopEnv) (s : Settings) (fuel : Nat) (cl : Bool)
    (st : LoopState) (h : ¬(cl = true ∧ st.iterations < maxIterations)) :
    runLoop env s fuel cl st = (st, .condFalse) := by
  cases fuel with
  | zero => rw [runLoop]
  | succ fuel => rw [runLoop, if_neg h]

/-- A flag read that observes `true` stops the loop before any model call. -/
theorem runLoop_stop (env : LoopEnv) (s : Settings) (fuel : Nat) (cl : Bool)
    (st : LoopState) (hcond : cl = true ∧ st.iterations < maxIterations)
    (hflag : env.stopFlag st.stopChecks = true) :
    runLoop env s (fuel + 1) cl st =
      ({ st with stopChecks := st.stopChecks + 1 }, .condFalse) := by
  rw [runLoop, if_pos hcond, hflag, if_pos rfl]

/-- One full iteration whose body does not throw. -/
theorem runLoop_step (env : LoopEnv) (s : Settings) (fuel : Nat) (cl : Bool)
    (st : LoopState) (history' : List MessageParam) (cl' : Bool) (ns' : List String)
    (hcond : cl = true ∧ st.iterations < maxIterations)
    (hflag : env.stopFlag st.stopChecks = false)
    (hstep : stepBody env s.maxTokens st.history
        (env.model (truncateToolResults s st.history)) = .ok history' cl' ns') :
    runLoop env s (fuel + 1) cl st =
      runLoop env s fuel cl'
        { history := history',
          iterations := st.iterations + 1,
          requests := st.requests ++ [truncateToolResults s st.history],
          notices := st.notices ++ ns',
          stopChecks := st.stopChecks + 1 } := by
  rw [runLoop, if_pos hcond, hflag, if_neg (by decide), hstep]

/-- Requests only accumulate: whatever the loop does, the requests already
recorded stay an initial segment of the final trace. -/
theorem runLoop_requests_mono (env : LoopEnv) (s : Settings) :
    ∀ (fuel : Nat) (cl : Bool) (st : LoopState),
      st.requests <+: (runLoop env s fuel cl st).1.requests
  | 0, cl, st => by
    rw [runLoop]
  | fuel + 1, cl, st => by
    rw [runLoop]
    by_cases hcond : cl = true ∧ st.iterations < maxIterations
    · rw [if_pos hcond]
      by_cases hflag : env.stopFlag st.stopChecks = true
      · rw [hflag, if_pos rfl]
      · rw [Bool.of_not_eq_true hflag, if_neg (by decide)]
        rcases hstep : stepBody env s.maxTokens st.history
            (env.model (truncateToolResults s st.history)) with ⟨h', cl', ns'⟩ | m
        · dsimp only
          have h1 : st.requests <+: st.requests ++ [truncateToolResults s st.history] :=
            List.prefix_append _ _
          exact h1.trans (runLoop_requests_mono env s fuel cl'
            { history := h', iterations := st.iterations + 1,
              requests := st.requests ++ [truncateToolResults s st.history],
              notices := st.notices ++ ns', stopChecks := st.stopChecks + 1 })
        · dsimp only
          exact List.prefix_append _ _
    · rw [if_neg hcond]

/-- The final state of the turn carries the loop's request trace and history
unchanged by the post-loop bookkeeping. -/
theorem sendMessageLoop_final (env : LoopEnv) (s : Settings) (h0 : List MessageParam) :
    (sendMessageLoop env s h0).final.requests =
      (runLoop env s (maxIterations + 1) true
        { history := h0, iterations := 0, requests := [], notices := [],
          stopChecks := 0 }).1.requests ∧
    (sendMessageLoop env s h0).final.history =
      (runLoop env s (maxIterations + 1) true
        { history := h0, iterations := 0, requests := [], notices := [],
          stopChecks := 0 }).1.history ∧
    (sendMessageLoop env s h0).final.notices =
      (runLoop env s (maxIterations + 1) true
        { history := h0, iterations := 0, requests := [], notices := [],
          stopChecks := 0 }).1.notices ∧
    (sendMessageLoop env s h0).final.iterations =
      (runLoop env s (maxIterations + 1) true
        { history := h0, iterations := 0, requests := [], notices := [],
          stopChecks := 0 }).1.iterations := by
  unfold sendMessageLoop
  rcases hrun : runLoop env s (maxIterations + 1) true
      { history := h0, iterations := 0, requests := [], notices := [],
        stopChecks := 0 } with ⟨st, ex⟩
  cases ex <;> exact ⟨rfl, rfl, rfl, rfl⟩

/-! ## Claim C5: ordered tool execution and result appending -/

/-- Claim C5: on a `tool_use` response the loop executes the `tool_use`
blocks in the order they appear in the content, appends the assistant
message and then exactly one user message whose `tool_result` blocks carry
the executors' results in that same order (each referencing the originating
block's id via `mkToolResult`), and only then issues the next model request:
the second entry of the request trace is built from the history with both
messages already appended.  For two blocks for tools A and B with results
"ok-A" and "ok-B", the appended user message holds `[result-A, result-B]`. -/
theorem sendMessage_toolUse_order (env : LoopEnv) (s : Settings)
    (h0 : List MessageParam) (tA tB : ContentBlock) (r : ModelResponse)
    (hmodel : env.model (truncateToolResults s h0) = r)
    (hsr : r.stop_reason = "tool_use")
    (hcontent : r.content = [tA, tB])
    (htA : tA.type = BlockType.tool_use) (htB : tB.type = BlockType.tool_use)
    (hexA : env.execTool tA.name tA.input = "ok-A")
    (hexB : env.execTool tB.name tB.input = "ok-B")
    (hflag0 : env.stopFlag 0 = false) (hflag1 : env.stopFlag 1 = false) :
    collectToolResults env r.content =
      [mkToolResult tA "ok-A", mkToolResult tB "ok-B"] ∧
    ∃ rest,
      (sendMessageLoop env s h0).final.requests =
        truncateToolResults s h0 ::
          truncateToolResults s (h0 ++
            [⟨Role.assistant, .blocks r.content⟩,
             ⟨Role.user, .blocks [mkToolResult tA "ok-A", mkToolResult tB "ok-B"]⟩]) ::
          rest := by
  have hcollect : collectToolResults env r.content =
      [mkToolResult tA "ok-A", mkToolResult tB "ok-B"] := by
    rw [hcontent, collectToolResults, if_pos htA, hexA, collectToolResults,
      if_pos htB, hexB, collectToolResults]
  refine ⟨hcollect, ?_⟩
  have hstep1 : stepBody env s.maxTokens h0 (env.model (truncateToolResults s h0)) =
      .ok (h0 ++
        [⟨Role.assistant, .blocks r.content⟩,
         ⟨Role.user, .blocks [mkToolResult tA "ok-A", mkToolResult tB "ok-B"]⟩])
        true [] := by
    rw [hmodel, stepBody_tool_use env s.maxTokens h0 r hsr, hcollect]
  have h1 : runLoop env s (maxIterations + 1) true
      { history := h0, iterations := 0, requests := [], notices := [], stopChecks := 0 } =
      runLoop env s maxIterations true
        { history := h0 ++
            [⟨Role.assistant, .blocks r.content⟩,
             ⟨Role.user, .blocks [mkToolResult tA "ok-A", mkToolResult tB "ok-B"]⟩],
          iterations := 1, requests := [truncateToolResults s h0],
          notices := [], stopChecks := 1 } := by
    rw [runLoop_step env s maxIterations true _ _ true []
      ⟨rfl, show (0 : Nat) < maxIterations by decide⟩ hflag0 hstep1]
    rfl
  have h2 : ∃ rest, (runLoop env s maxIterations true
      { history := h0 ++
          [⟨Role.assistant, .blocks r.content⟩,
           ⟨Role.user, .blocks [mkToolResult tA "ok-A", mkToolResult tB "ok-B"]⟩],
        iterations := 1, requests := [truncateToolResults s h0],
        notices := [], stopChecks := 1 }).1.requests =
      truncateToolResults s h0 ::
        truncateToolResults s (h0 ++
          [⟨Role.assistant, .blocks r.content⟩,
           ⟨Role.user, .blocks [mkToolResult tA "ok-A", mkToolResult tB "ok-B"]⟩]) ::
        rest := by
    rw [show (maxIterations : Nat) = 9 + 1 from rfl, runLoop]
    rw [if_pos ⟨rfl, show (1 : Nat) < 9 + 1 by decide⟩]
    dsimp only
    rw [hflag1, if_neg (by decide)]
    rcases hstep2 : stepBody env s.maxTokens _ _ with ⟨h', cl', ns'⟩ | m
    · dsimp only
      obtain ⟨t, ht⟩ := runLoop_requests_mono env s 9 cl'
        { history := h',
          iterations := 1 + 1,
          requests := [truncateToolResults s h0] ++
            [truncateToolResults s (h0 ++
              [⟨Role.assistant, .blocks r.content⟩,
               ⟨Role.user, .blocks [mkToolResult tA "ok-A", mkToolResult tB "ok-B"]⟩])],
          notices := [] ++ ns', stopChecks := 1 + 1 }
      exact ⟨t, ht.symm⟩
    · exact ⟨[], rfl⟩
  obtain ⟨rest, hr⟩ := h2
  refine ⟨rest, ?_⟩
  rw [(sendMessageLoop_final env s h0).1, h1]
  exact hr

def c5ToolA : ContentBlock :=
  { type := BlockType.tool_use, id := some "a1", name := some "read_file",
    input := some "one" }

def c5ToolB : ContentBlock :=
  { type := BlockType.tool_use, id := some "b2", name := some "search_in_file",
    input := some "two" }

def c5Response : ModelResponse := ⟨"tool_use", [c5ToolA, c5ToolB]⟩

/-- An environment whose model asks for tools A and B on the first call and
ends the turn afterwards. -/
def c5Env : LoopEnv :=
  { model := fun h =>
      if h.length ≤ 1 then c5Response
      else ⟨"end_turn", [{ type := BlockType.text, text := some "done" }]⟩,
    execTool := fun n _ => if n = some "read_file" then "ok-A" else "ok-B",
    stopFlag := fun _ => false }

def c5H0 : List MessageParam := [⟨Role.user, .str "please call tools A and B"⟩]

theorem sendMessage_toolUse_order_witness :
    collectToolResults c5Env c5Response.content =
      [mkToolResult c5ToolA "ok-A", mkToolResult c5ToolB "ok-B"] ∧
    ∃ rest,
      (sendMessageLoop c5Env {} c5H0).final.requests =
        truncateToolResults {} c5H0 ::
          truncateToolResults {} (c5H0 ++
            [⟨Role.assistant, .blocks c5Response.content⟩,
             ⟨Role.user, .blocks [mkToolResult c5ToolA "ok-A",
                                  mkToolResult c5ToolB "ok-B"]⟩]) ::
          rest :=
  sendMessage_toolUse_order c5Env {} c5H0 c5ToolA c5ToolB c5Response
    (by decide) (by decide) (by decide) (by decide) (by decide)
    (by decide) (by decide) (by decide) (by decide)

/-! ## Claim C2: the `max_tokens` stop reason -/

def c2ToolUse : ContentBlock :=
  { type := BlockType.tool_use, id := some "t1", name := some "read_file",
    input := some "p" }

def c2Response : ModelResponse := ⟨"max_tokens", [c2ToolUse]⟩

/-- An environment whose model always answers with a truncated response that
still contains a `tool_use` block. -/
def c2Env : LoopEnv :=
  { model := fun _ => c2Response,
    execTool := fun _ _ => "partial result",
    stopFlag := fun _ => false }

def c2H0 : List MessageParam := [⟨Role.user, .str "apply the plan please"⟩]

/-- Claim C2 as stated is false on the code: on a `max_tokens` response that
does contain a `tool_use` block, the loop executes the tool call and appends
the assistant and tool_result messages, but then sets `continueLoop = false`
and stops — exactly one model request is ever issued, instead of continuing
the loop with another request. -/
theorem sendMessage_max_tokens_cex :
    (c2Env.model (truncateToolResults {} c2H0)).stop_reason = "max_tokens" ∧
    ((c2Env.model (truncateToolResults {} c2H0)).content.any
      (fun b => b.type == BlockType.tool_use)) = true ∧
    (sendMessageLoop c2Env {} c2H0).final.history =
      c2H0 ++ [⟨Role.assistant, .blocks c2Response.content⟩,
               ⟨Role.user, .blocks (collectToolResults c2Env c2Response.content)⟩] ∧
    (sendMessageLoop c2Env {} c2H0).final.requests.length = 1 := by
  refine ⟨?_, ?_, ?_, ?_⟩ <;> decide

/-- Claim C2, amended to what the code does: on a `max_tokens` response the
loop executes and appends the tool calls when any `tool_use` block is
present (otherwise appends just the partial assistant message), surfaces the
truncated-type-continue notice, and stops the turn in either case — no
further model request is made. -/
theorem sendMessage_max_tokens (env : LoopEnv) (s : Settings)
    (h0 : List MessageParam) (r : ModelResponse)
    (hmodel : env.model (truncateToolResults s h0) = r)
    (hsr : r.stop_reason = "max_tokens")
    (hflag0 : env.stopFlag 0 = false) :
    (sendMessageLoop env s h0).final.history =
      (if r.content.any (fun b => b.type = BlockType.tool_use) then
        h0 ++ [⟨Role.assistant, .blocks r.content⟩,
               ⟨Role.user, .blocks (collectToolResults env r.content)⟩]
      else h0 ++ [⟨Role.assistant, .blocks r.content⟩]) ∧
    (sendMessageLoop env s h0).final.requests = [truncateToolResults s h0] ∧
    (sendMessageLoop env s h0).final.notices = [truncatedNotice s.maxTokens] ∧
    (sendMessageLoop env s h0).final.iterations = 1 := by
  have hstep1 : stepBody env s.maxTokens h0 (env.model (truncateToolResults s h0)) =
      .ok (if r.content.any (fun b => b.type = BlockType.tool_use) then
            h0 ++ [⟨Role.assistant, .blocks r.content⟩,
                   ⟨Role.user, .blocks (collectToolResults env r.content)⟩]
          else h0 ++ [⟨Role.assistant, .blocks r.content⟩])
        false [truncatedNotice s.maxTokens] := by
    rw [hmodel, stepBody_max_tokens env s.maxTokens h0 r hsr]
  have h1 : runLoop env s (maxIterations + 1) true
      { history := h0, iterations := 0, requests := [], notices := [], stopChecks := 0 } =
      runLoop env s maxIterations false
        { history :=
            (if r.content.any (fun b => b.type = BlockType.tool_use) then
              h0 ++ [⟨Role.assistant, .blocks r.content⟩,
                     ⟨Role.user, .blocks (collectToolResults env r.content)⟩]
            else h0 ++ [⟨Role.assistant, .blocks r.content⟩]),
          iterations := 1, requests := [truncateToolResults s h0],
          notices := [truncatedNotice s.maxTokens], stopChecks := 1 } := by
    rw [runLoop_step env s maxIterations true _ _ false [truncatedNotice s.maxTokens]
      ⟨rfl, show (0 : Nat) < maxIterations by decide⟩ hflag0 hstep1]
    rfl
  have h2 : runLoop env s maxIterations false
      { history :=
          (if r.content.any (fun b => b.type = BlockType.tool_use) then
            h0 ++ [⟨Role.assistant, .blocks r.content⟩,
                   ⟨Role.user, .blocks (collectToolResults env r.content)⟩]
          else h0 ++ [⟨Role.assistant, .blocks r.content⟩]),
        iterations := 1, requests := [truncateToolResults s h0],
        notices := [truncatedNotice s.maxTokens], stopChecks := 1 } =
      ({ history :=
            (if r.content.any (fun b => b.type = BlockType.tool_use) then
              h0 ++ [⟨Role.assistant, .blocks r.content⟩,
                     ⟨Role.user, .blocks (collectToolResults env r.content)⟩]
            else h0 ++ [⟨Role.assistant, .blocks r.content⟩]),
         iterations := 1, requests := [truncateToolResults s h0],
         notices := [truncatedNotice s.maxTokens], stopChecks := 1 }, .condFalse) :=
    runLoop_exit env s maxIterations false _ (by simp)
  obtain ⟨hreq, hhist, hnot, hiter⟩ := sendMessageLoop_final env s h0
  rw [h1, h2] at hreq hhist hnot hiter
  exact ⟨hhist, hreq, hnot, hiter⟩

theorem sendMessage_max_tokens_witness :
    (sendMessageLoop c2Env {} c2H0).final.history =
      (if c2Response.content.any (fun b => b.type = BlockType.tool_use) then
        c2H0 ++ [⟨Role.assistant, .blocks c2Response.content⟩,
                 ⟨Role.user, .blocks (collectToolResults c2Env c2Response.content)⟩]
      else c2H0 ++ [⟨Role.assistant, .blocks c2Response.content⟩]) ∧
    (sendMessageLoop c2Env {} c2H0).final.requests = [truncateToolResults {} c2H0] ∧
    (sendMessageLoop c2Env {} c2H0).final.notices =
      [truncatedNotice ({} : Settings).maxTokens] ∧
    (sendMessageLoop c2Env {} c2H0).final.iterations = 1 :=
  sendMessage_max_tokens c2Env {} c2H0 c2Response (by decide) (by decide) (by decide)

/-! ## Claim C9: cancellation after a tool round-trip -/

/-- An environment in which the user sets the stop flag during the first
tool round-trip: the first flag read observes `false`, every later read
observes `true`. -/
def c9Env : LoopEnv :=
  { model := fun _ => c5Response,
    execTool := fun _ _ => "round trip result",
    stopFlag := fun k => decide (1 ≤ k) }

def c9H0 : List MessageParam := [⟨Role.user, .str "start a long tool run"⟩]

/-- Claim C9: when the stop flag is set after a `tool_use` round-trip has
appended its assistant and tool_result messages, the loop exits before
issuing the next model request (the request trace has exactly the one
request), the appended tool_result messages remain in the final history, and
the turn reports stopped-by-user.  The flag is read exactly once per loop
iteration in the `while` condition — here twice in the loop (once to enter
the single iteration, once observing `true` between that iteration's history
mutation and the next model call) plus the single post-loop re-read at
`src/main.ts:1904`, so the final read counter is 3. -/
theorem sendMessage_cancellation (env : LoopEnv) (s : Settings)
    (h0 : List MessageParam) (r : ModelResponse)
    (hmodel : env.model (truncateToolResults s h0) = r)
    (hsr : r.stop_reason = "tool_use")
    (hflag0 : env.stopFlag 0 = false) (hflag1 : env.stopFlag 1 = true)
    (hflag2 : env.stopFlag 2 = true) :
    (sendMessageLoop env s h0).final.history =
      h0 ++ [⟨Role.assistant, .blocks r.content⟩,
             ⟨Role.user, .blocks (collectToolResults env r.content)⟩] ∧
    (sendMessageLoop env s h0).final.requests = [truncateToolResults s h0] ∧
    (sendMessageLoop env s h0).stoppedByUser = true ∧
    (sendMessageLoop env s h0).final.iterations = 1 ∧
    (sendMessageLoop env s h0).final.stopChecks = 3 := by
  have hstep1 : stepBody env s.maxTokens h0 (env.model (truncateToolResults s h0)) =
      .ok (h0 ++ [⟨Role.assistant, .blocks r.content⟩,
                  ⟨Role.user, .blocks (collectToolResults env r.content)⟩])
        true [] := by
    rw [hmodel, stepBody_tool_use env s.maxTokens h0 r hsr]
  have h1 : runLoop env s (maxIterations + 1) true
      { history := h0, iterations := 0, requests := [], notices := [], stopChecks := 0 } =
      runLoop env s maxIterations true
        { history := h0 ++ [⟨Role.assistant, .blocks r.content⟩,
                            ⟨Role.user, .blocks (collectToolResults env r.content)⟩],
          iterations := 1, requests := [truncateToolResults s h0],
          notices := [], stopChecks := 1 } := by
    rw [runLoop_step env s maxIterations true _ _ true []
      ⟨rfl, show (0 : Nat) < maxIterations by decide⟩ hflag0 hstep1]
    rfl
  have h2 : runLoop env s maxIterations true
      { history := h0 ++ [⟨Role.assistant, .blocks r.content⟩,
                          ⟨Role.user, .blocks (collectToolResults env r.content)⟩],
        iterations := 1, requests := [truncateToolResults s h0],
        notices := [], stopChecks := 1 } =
      ({ history := h0 ++ [⟨Role.assistant, .blocks r.content⟩,
                           ⟨Role.user, .blocks (collectToolResults env r.content)⟩],
         iterations := 1, requests := [truncateToolResults s h0],
         notices := [], stopChecks := 2 }, .condFalse) := by
    rw [show (maxIterations : Nat) = 9 + 1 from rfl]
    rw [runLoop_stop env s 9 true _ ⟨rfl, show (1 : Nat) < maxIterations by decide⟩ hflag1]
  have hrun : runLoop env s (maxIterations + 1) true
      { history := h0, iterations := 0, requests := [], notices := [], stopChecks := 0 } =
      ({ history := h0 ++ [⟨Role.assistant, .blocks r.content⟩,
                           ⟨Role.user, .blocks (collectToolResults env r.content)⟩],
         iterations := 1, requests := [truncateToolResults s h0],
         notices := [], stopChecks := 2 }, .condFalse) := by
    rw [h1, h2]
  rw [sendMessageLoop, hrun]
  exact ⟨rfl, rfl, hflag2, rfl, rfl⟩

theorem sendMessage_cancellation_witness :
    (sendMessageLoop c9Env {} c9H0).final.history =
      c9H0 ++ [⟨Role.assistant, .blocks c5Response.content⟩,
               ⟨Role.user, .blocks (collectToolResults c9Env c5Response.content)⟩] ∧
    (sendMessageLoop c9Env {} c9H0).final.requests = [truncateToolResults {} c9H0] ∧
    (sendMessageLoop c9Env {} c9H0).stoppedByUser = true ∧
    (sendMessageLoop c9Env {} c9H0).final.iterations = 1 ∧
    (sendMessageLoop c9Env {} c9H0).final.stopChecks = 3 :=
  sendMessage_cancellation c9Env {} c9H0 c5Response
    (by decide) (by decide) (by decide) (by decide) (by decide)

/-! ## Claim C8: bounded conversation store with LRU-by-timestamp eviction -/

instance : IsTotal SavedConversation tsGE :=
  ⟨fun a b => Nat.le_total b.timestamp a.timestamp⟩

instance : IsTrans SavedConversation tsGE :=
  ⟨fun _ _ _ hab hbc => Nat.le_trans hbc hab⟩

theorem sortByTimestampDesc_perm (l : List SavedConversation) :
    (sortByTimestampDesc l).Perm l :=
  List.perm_insertionSort tsGE l

theorem sortByTimestampDesc_sorted (l : List SavedConversation) :
    (sortByTimestampDesc l).Pairwise tsGE :=
  List.sorted_insertionSort tsGE l

/-- The new record `saveCurrentConversation` builds for a fresh id. -/
def freshConversation (fid convName : String) (now : Nat)
    (messages : List MessageParam) (summary : String) : SavedConversation :=
  ⟨fid, convName, now, messages, summary⟩

theorem saveCurrentConversation_fresh (saved : List SavedConversation)
    (fid convName : String) (now : Nat) (messages : List MessageParam) (summary : String)
    (hmsgs : messages ≠ []) (hfresh : ∀ c ∈ saved, ¬(c.id = fid)) :
    saveCurrentConversation true saved "" fid convName now messages summary =
      (if (saved ++ [freshConversation fid convName now messages summary]).length > 10 then
        (sortByTimestampDesc
          (saved ++ [freshConversation fid convName now messages summary])).take 10
      else saved ++ [freshConversation fid convName now messages summary], fid) := by
  have hidx : saved.findIdx? (fun c => c.id == fid) = none := by
    rw [List.findIdx?_eq_none_iff]
    intro c hc
    simpa using hfresh c hc
  rw [saveCurrentConversation, if_neg (by simp [hmsgs])]
  dsimp only
  rw [show (if ("" : String) = "" then fid else "") = fid from rfl, hidx]
  rfl

/-- Claim C8: the conversation store is bounded at 10 — a save never grows a
within-bound store past 10 — and when the bound is exceeded by saving a
fresh conversation into a full store, the conversation with the strictly
oldest update timestamp is the one evicted while the 10 most recently
updated all survive. -/
theorem conversationStore_bounded
    (autoSave : Bool) (saved saved10 : List SavedConversation)
    (cid fid fid10 convName convName10 : String) (now now10 : Nat)
    (messages messages10 : List MessageParam) (summary summary10 : String)
    (cOld : SavedConversation) :
    (saved.length ≤ 10 →
      (saveCurrentConversation autoSave saved cid fid convName now
        messages summary).1.length ≤ 10) ∧
    (saved10.length = 10 → messages10 ≠ [] →
      (∀ c ∈ saved10, ¬(c.id = fid10)) →
      (cOld ∈ saved10 ++ [freshConversation fid10 convName10 now10 messages10 summary10]) →
      (∀ c ∈ saved10 ++ [freshConversation fid10 convName10 now10 messages10 summary10],
        c ≠ cOld → cOld.timestamp < c.timestamp) →
      ((saved10 ++ [freshConversation fid10 convName10 now10 messages10
        summary10]).Pairwise (fun a b => a.timestamp ≠ b.timestamp)) →
      (saveCurrentConversation true saved10 "" fid10 convName10 now10
          messages10 summary10).1.length = 10 ∧
      cOld ∉ (saveCurrentConversation true saved10 "" fid10 convName10 now10
          messages10 summary10).1 ∧
      (∀ c ∈ saved10 ++ [freshConversation fid10 convName10 now10 messages10 summary10],
        c ≠ cOld →
        c ∈ (saveCurrentConversation true saved10 "" fid10 convName10 now10
          messages10 summary10).1)) := by
  constructor
  · intro hle
    rw [saveCurrentConversation]
    split
    · exact hle
    · dsimp only
      rcases hidx : List.findIdx? (fun c => c.id == if cid = "" then fid else cid) saved
        with _ | i
      · rw [hidx]
        dsimp only
        generalize ({ id := if cid = "" then fid else cid,
                      name := convName,
                      timestamp := now,
                      messages := messages,
                      summary := summary } : SavedConversation) = conv
        split
        · rw [List.length_take]
          omega
        · rename_i hng
          rw [List.length_append] at hng ⊢
          simp only [List.length_cons, List.length_nil] at hng ⊢
          omega
      · rw [hidx]
        dsimp only
        generalize ({ id := if cid = "" then fid else cid,
                      name := convName,
                      timestamp := now,
                      messages := messages,
                      summary := summary } : SavedConversation) = conv
        split
        · rw [List.length_take]
          omega
        · rw [List.length_set]
          exact hle
  · intro hlen hmsgs hfresh hmem hmin hdist
    set S1 := saved10 ++ [freshConversation fid10 convName10 now10 messages10 summary10]
      with hS1
    have hS1len : S1.length = 11 := by
      rw [hS1, List.length_append, hlen]
      rfl
    rw [saveCurrentConversation_fresh saved10 fid10 convName10 now10 messages10 summary10
      hmsgs hfresh]
    rw [← hS1]
    rw [if_pos (by rw [hS1len]; omega)]
    dsimp only
    set S := sortByTimestampDesc S1 with hS
    have hperm : S.Perm S1 := sortByTimestampDesc_perm S1
    have hsorted : S.Pairwise tsGE := sortByTimestampDesc_sorted S1
    have hSlen : S.length = 11 := by rw [hperm.length_eq, hS1len]
    have hSne : S ≠ [] := by
      intro e
      rw [e] at hSlen
      exact absurd hSlen (by decide)
    have hdecomp : S.dropLast ++ [S.getLast hSne] = S := List.dropLast_append_getLast hSne
    have hlastmin : ∀ a ∈ S.dropLast, tsGE a (S.getLast hSne) := by
      intro a ha
      have := (List.pairwise_append.mp (hdecomp ▸ hsorted)).2.2
      exact this a ha (S.getLast hSne) (List.mem_singleton.mpr rfl)
    have hlast : S.getLast hSne = cOld := by
      by_contra hne
      have hlmem : S.getLast hSne ∈ S1 := hperm.subset (S.getLast_mem hSne)
      have hlt : cOld.timestamp < (S.getLast hSne).timestamp := hmin _ hlmem hne
      have hOldS : cOld ∈ S := hperm.mem_iff.mpr hmem
      rcases (List.mem_append.mp (hdecomp ▸ hOldS)) with hd | hl
      · have := hlastmin cOld hd
        exact absurd hlt (by rw [tsGE] at this; omega)
      · exact hne (List.mem_singleton.mp hl).symm
    have hdistS : S.Pairwise (fun a b => a.timestamp ≠ b.timestamp) :=
      (hperm.pairwise_iff (fun hab => Ne.symm hab)).mpr hdist
    have htake : S.take 10 = S.dropLast := by
      rw [List.dropLast_eq_take, hSlen]
    rw [htake]
    refine ⟨?_, ?_, ?_⟩
    · rw [List.length_dropLast, hSlen]
    · intro hOldDrop
      have := (List.pairwise_append.mp (hdecomp ▸ hdistS)).2.2 cOld hOldDrop
        (S.getLast hSne) (List.mem_singleton.mpr rfl)
      rw [hlast] at this
      exact this rfl
    · intro c hc hne
      have hcS : c ∈ S := hperm.mem_iff.mpr hc
      rcases (List.mem_append.mp (hdecomp ▸ hcS)) with hd | hl
      · exact hd
      · exact absurd ((List.mem_singleton.mp hl).trans hlast) hne

/-- The eleven-save scenario: conversations c1 … c11 saved in order into an
initially empty store, with update timestamps 1 … 11. -/
def c8Store : List SavedConversation :=
  ((List.range 11).map (fun i => ("c" ++ toString (i + 1), i + 1))).foldl
    (fun store p =>
      (saveCurrentConversation true store "" p.1 ("conversation " ++ p.1) p.2
        [⟨Role.user, .str "hello from the user"⟩] "").1)
    []

theorem conversationStore_bounded_witness :
    c8Store.length = 10 ∧
    c8Store.map (fun c => c.id) =
      ["c11", "c10", "c9", "c8", "c7", "c6", "c5", "c4", "c3", "c2"] ∧
    (saveCurrentConversation true c8Store "" "c12" "conversation c12" 12
      [⟨Role.user, .str "hello from the user"⟩] "").1.length ≤ 10 := by
  refine ⟨by decide, by decide, ?_⟩
  exact (conversationStore_bounded true c8Store [] "" "c12" "" "conversation c12" "" 12 12
    [⟨Role.user, .str "hello from the user"⟩] [] "" "" ⟨"", "", 0, [], ""⟩).1 (by decide)

/-! ## Claim C10: heap lemmas — allocation-only heap growth -/

theorem heapExtends_refl (h : Heap) : h.Extends h :=
  ⟨List.prefix_refl _, List.prefix_refl _⟩

theorem heapExtends_trans {h₃ h₂ h₁ : Heap} (h32 : h₃.Extends h₂) (h21 : h₂.Extends h₁) :
    h₃.Extends h₁ :=
  ⟨h21.1.trans h32.1, h21.2.trans h32.2⟩

theorem lookupMsg_extends {h' h : Heap} (he : h'.Extends h) {a : Addr}
    (ha : a < h.msgCells.length) : lookupMsg h' a = lookupMsg h a := by
  obtain ⟨t, ht⟩ := he.1
  rw [lookupMsg, lookupMsg, ← ht, List.getElem?_append_left ha]

theorem lookupBlock_extends {h' h : Heap} (he : h'.Extends h) {a : Addr}
    (ha : a < h.blockCells.length) : lookupBlock h' a = lookupBlock h a := by
  obtain ⟨t, ht⟩ := he.2
  rw [lookupBlock, lookupBlock, ← ht, List.getElem?_append_left ha]

theorem derefMsg_extends {h' h : Heap} (he : h'.Extends h) {a : Addr}
    (hv : h.ValidMsg a) : derefMsg h' a = derefMsg h a := by
  obtain ⟨ha, hb⟩ := hv
  rw [derefMsg, derefMsg, lookupMsg_extends he ha]
  rcases hm : lookupMsg h a with ⟨role, content⟩
  cases content with
  | str c => rfl
  | blocks bs =>
    dsimp only
    congr 1
    refine congrArg _ (List.map_congr_left fun b hbmem => ?_)
    refine lookupBlock_extends he ?_
    refine hb b ?_
    rw [hm]
    exact hbmem

theorem validMsg_extends {h' h : Heap} (he : h'.Extends h) {a : Addr}
    (hv : h.ValidMsg a) : h'.ValidMsg a := by
  obtain ⟨ha, hb⟩ := hv
  refine ⟨Nat.lt_of_lt_of_le ha he.1.length_le, ?_⟩
  rw [lookupMsg_extends he ha]
  intro b hbmem
  exact Nat.lt_of_lt_of_le (hb b hbmem) he.2.length_le

theorem allocMsg_extends (h : Heap) (m : HeapMsg) : (allocMsg h m).1.Extends h :=
  ⟨List.prefix_append _ _, List.prefix_refl _⟩

theorem allocBlock_extends (h : Heap) (b : ContentBlock) : (allocBlock h b).1.Extends h :=
  ⟨List.prefix_refl _, List.prefix_append _ _⟩

theorem lookupMsg_allocMsg (h : Heap) (m : HeapMsg) :
    lookupMsg (allocMsg h m).1 (allocMsg h m).2 = m := by
  rw [allocMsg, lookupMsg]
  dsimp only
  rw [List.getElem?_concat_length]
  rfl

theorem lookupBlock_allocBlock (h : Heap) (b : ContentBlock) :
    lookupBlock (allocBlock h b).1 (allocBlock h b).2 = b := by
  rw [allocBlock, lookupBlock]
  dsimp only
  rw [List.getElem?_concat_length]
  rfl

theorem truncBlockH_spec (h : Heap) (a : Addr) (ha : a < h.blockCells.length) :
    (truncBlockH h a).1.Extends h ∧
    (truncBlockH h a).2 < (truncBlockH h a).1.blockCells.length ∧
    lookupBlock (truncBlockH h a).1 (truncBlockH h a).2 = truncBlock (lookupBlock h a) := by
  rcases hb : lookupBlock h a with ⟨ty, tx, id_, nm, inp, tuid, cont⟩
  cases cont with
  | none =>
    rw [truncBlockH, hb]
    dsimp only
    refine ⟨heapExtends_refl h, ha, ?_⟩
    rw [truncBlock]
    exact hb
  | some c =>
    rw [truncBlockH, hb]
    dsimp only
    rw [truncBlock_some]
    split
    · refine ⟨allocBlock_extends _ _, ?_, ?_⟩
      · simp [allocBlock]
      · exact lookupBlock_allocBlock _ _
    · refine ⟨heapExtends_refl h, ha, hb⟩

theorem truncBlocksH_spec (h : Heap) :
    ∀ (bs : List Addr), (∀ a ∈ bs, a < h.blockCells.length) →
      (truncBlocksH h bs).1.Extends h ∧
      (∀ a' ∈ (truncBlocksH h bs).2, a' < (truncBlocksH h bs).1.blockCells.length) ∧
      (truncBlocksH h bs).2.map (lookupBlock (truncBlocksH h bs).1) =
        (bs.map (lookupBlock h)).map truncBlock
  | [], _ => ⟨heapExtends_refl h, by simp [truncBlocksH], by simp [truncBlocksH]⟩
  | a :: rest, hv => by
    have ha : a < h.blockCells.length := hv a (List.mem_cons_self _ _)
    obtain ⟨he1, ha', hl1⟩ := truncBlockH_spec h a ha
    have hvrest : ∀ b ∈ rest, b < (truncBlockH h a).1.blockCells.length := fun b hb =>
      Nat.lt_of_lt_of_le (hv b (List.mem_cons_of_mem _ hb)) he1.2.length_le
    obtain ⟨he2, hrest', hl2⟩ := truncBlocksH_spec (truncBlockH h a).1 rest hvrest
    rw [truncBlocksH]
    dsimp only
    refine ⟨heapExtends_trans he2 he1, ?_, ?_⟩
    · intro a' ha'mem
      rcases List.mem_cons.mp ha'mem with rfl | hmem
      · exact Nat.lt_of_lt_of_le ha' he2.2.length_le
      · exact hrest' a' hmem
    · rw [List.map_cons, List.map_cons, List.map_cons, hl2]
      rw [lookupBlock_extends he2 ha', hl1]
      congr 1
      refine congrArg _ (List.map_congr_left fun b hb => ?_)
      rw [lookupBlock_extends he1 (hv b (List.mem_cons_of_mem _ hb))]

theorem derefMsg_str {h : Heap} {a : Addr} {role : Role} {c : String}
    (hm : lookupMsg h a = ⟨role, .str c⟩) : derefMsg h a = ⟨role, .str c⟩ := by
  rw [derefMsg, hm]

theorem derefMsg_blocks {h : Heap} {a : Addr} {role : Role} {bs : List Addr}
    (hm : lookupMsg h a = ⟨role, .blocks bs⟩) :
    derefMsg h a = ⟨role, .blocks (bs.map (lookupBlock h))⟩ := by
  rw [derefMsg, hm]

theorem truncMsgH_spec (h : Heap) (len i : Nat) (a : Addr) (hv : h.ValidMsg a) :
    (truncMsgH h len i a).1.Extends h ∧
    (truncMsgH h len i a).1.ValidMsg (truncMsgH h len i a).2 ∧
    derefMsg (truncMsgH h len i a).1 (truncMsgH h len i a).2 =
      truncMsg len i (derefMsg h a) := by
  by_cases hi : len - 3 ≤ i
  · rw [truncMsgH, if_pos hi, truncMsg, if_pos hi]
    exact ⟨heapExtends_refl h, hv, rfl⟩
  · rcases hm : lookupMsg h a with ⟨role, content⟩
    cases content with
    | blocks bs =>
      have hbs : ∀ b ∈ bs, b < h.blockCells.length := by
        intro b hb
        refine hv.2 b ?_
        rw [hm]
        exact hb
      obtain ⟨he1, hval', hmap⟩ := truncBlocksH_spec h bs hbs
      rw [truncMsgH, if_neg hi, hm]
      dsimp only
      refine ⟨heapExtends_trans (allocMsg_extends _ _) he1, ⟨?_, ?_⟩, ?_⟩
      · simp [allocMsg]
      · rw [lookupMsg_allocMsg]
        intro b hb
        exact hval' b hb
      · rw [derefMsg_blocks (lookupMsg_allocMsg _ _), derefMsg_blocks hm,
          truncMsg_blocks, if_neg hi, ← hmap]
        rfl
    | str c =>
      rw [truncMsgH, if_neg hi, hm]
      dsimp only
      split
      · rename_i hcond
        refine ⟨allocMsg_extends _ _, ⟨?_, ?_⟩, ?_⟩
        · simp [allocMsg]
        · rw [lookupMsg_allocMsg]
          intro b hb
          exact absurd hb (by simp [HeapMsg.blockAddrs])
        · rw [derefMsg_str (lookupMsg_allocMsg _ _), derefMsg_str hm, truncMsg_str,
            if_neg hi, if_pos hcond]
      · rename_i hcond
        refine ⟨heapExtends_refl h, hv, ?_⟩
        rw [derefMsg_str hm, truncMsg_str, if_neg hi, if_neg hcond]

theorem truncMapGoH_spec (len : Nat) :
    ∀ (h : Heap) (l : List Addr) (i : Nat), (∀ a ∈ l, h.ValidMsg a) →
      (truncMapGoH len h i l).1.Extends h ∧
      (truncMapGoH len h i l).2.map (derefMsg (truncMapGoH len h i l).1) =
        truncMapGo len i (l.map (derefMsg h))
  | h, [], i, _ => ⟨heapExtends_refl h, rfl⟩
  | h, a :: rest, i, hv => by
    have hva := hv a (List.mem_cons_self _ _)
    obtain ⟨he1, hv1, hd1⟩ := truncMsgH_spec h len i a hva
    have hvrest : ∀ b ∈ rest, (truncMsgH h len i a).1.ValidMsg b := fun b hb =>
      validMsg_extends he1 (hv b (List.mem_cons_of_mem _ hb))
    obtain ⟨he2, hmap2⟩ := truncMapGoH_spec len (truncMsgH h len i a).1 rest (i + 1) hvrest
    rw [truncMapGoH]
    dsimp only
    refine ⟨heapExtends_trans he2 he1, ?_⟩
    rw [List.map_cons, List.map_cons, truncMapGo_cons]
    congr 1
    · rw [derefMsg_extends he2 hv1, hd1]
    · rw [hmap2]
      congr 1
      exact List.map_congr_left fun b hb =>
        derefMsg_extends he1 (hv b (List.mem_cons_of_mem _ hb))

theorem pruneGoH_map (heap : Heap) (len : Nat) :
    ∀ (l : List Addr) (i : Nat),
      (pruneGoH heap len i l).map (derefMsg heap) = pruneGo len i (l.map (derefMsg heap))
  | [], _ => rfl
  | a :: rest, i => by
    rw [List.map_cons, pruneGoH, pruneGo]
    split
    · rw [List.map_cons, pruneGoH_map heap len rest (i + 1)]
    · exact pruneGoH_map heap len rest (i + 1)

theorem pruneGoH_subset (heap : Heap) (len : Nat) :
    ∀ (l : List Addr) (i : Nat), ∀ a ∈ pruneGoH heap len i l, a ∈ l
  | [], _ => by simp [pruneGoH]
  | b :: rest, i => by
    rw [pruneGoH]
    split
    · intro a ha
      rcases List.mem_cons.mp ha with rfl | hmem
      · exact List.mem_cons_self _ _
      · exact List.mem_cons_of_mem _ (pruneGoH_subset heap len rest (i + 1) a hmem)
    · intro a ha
      exact List.mem_cons_of_mem _ (pruneGoH_subset heap len rest (i + 1) a ha)

theorem smartPruneHistoryH_map (s : Settings) (heap : Heap) (history : List Addr) :
    (smartPruneHistoryH s heap history).map (derefMsg heap) =
      smartPruneHistory s (history.map (derefMsg heap)) := by
  rw [smartPruneHistoryH, smartPruneHistory]
  split
  · rw [pruneGoH_map, List.length_map]
  · rfl

theorem smartPruneHistoryH_subset (s : Settings) (heap : Heap) (history : List Addr) :
    ∀ a ∈ smartPruneHistoryH s heap history, a ∈ history := by
  rw [smartPruneHistoryH]
  split
  · exact pruneGoH_subset heap history.length history 0
  · exact fun a ha => ha

theorem jsSliceLast_map {α β : Type} (f : α → β) (l : List α) (k : Nat) :
    (jsSliceLast l k).map f = jsSliceLast (l.map f) k := by
  rw [jsSliceLast, jsSliceLast]
  split
  · rfl
  · rw [List.map_drop, List.length_map]

theorem jsSliceLast_subset {α : Type} (l : List α) (k : Nat) :
    ∀ a ∈ jsSliceLast l k, a ∈ l := by
  rw [jsSliceLast]
  split
  · exact fun a ha => ha
  · exact fun a ha => List.mem_of_mem_drop ha

/-- The trimmed reference list `truncateToolResultsH` feeds to the final
content-truncation map. -/
def truncCoreH (s : Settings) (heap : Heap) (history : List Addr) : List Addr :=
  let trimmedHistory := smartPruneHistoryH s heap history
  if trimmedHistory.length > s.maxHistoryMessages then
    if estimateHistoryTokens (trimmedHistory.map (derefMsg heap)) * 100 >
        s.autoSummarizeThreshold * getModelContextWindow then
      jsSliceLast trimmedHistory 10
    else
      jsSliceLast trimmedHistory s.maxHistoryMessages
  else trimmedHistory

theorem truncateToolResultsH_eq_core (s : Settings) (heap : Heap) (history : List Addr) :
    truncateToolResultsH s heap history =
      truncMapGoH (truncCoreH s heap history).length heap 0 (truncCoreH s heap history) := rfl

theorem truncCoreH_map (s : Settings) (heap : Heap) (history : List Addr) :
    (truncCoreH s heap history).map (derefMsg heap) =
      truncCore s (history.map (derefMsg heap)) := by
  have hmapP := smartPruneHistoryH_map s heap history
  have hlen : (smartPruneHistoryH s heap history).length =
      (smartPruneHistory s (history.map (derefMsg heap))).length := by
    rw [← hmapP, List.length_map]
  rw [truncCoreH, truncCore]
  by_cases h1 : (smartPruneHistoryH s heap history).length > s.maxHistoryMessages
  · have h1p : (smartPruneHistory s (history.map (derefMsg heap))).length >
        s.maxHistoryMessages := by
      rw [← hlen]
      exact h1
    rw [if_pos h1, if_pos h1p, hmapP]
    by_cases h2 : estimateHistoryTokens
        (smartPruneHistory s (history.map (derefMsg heap))) * 100 >
        s.autoSummarizeThreshold * getModelContextWindow
    · rw [if_pos h2, if_pos h2, jsSliceLast_map, hmapP]
    · rw [if_neg h2, if_neg h2, jsSliceLast_map, hmapP]
  · have h1p : ¬((smartPruneHistory s (history.map (derefMsg heap))).length >
        s.maxHistoryMessages) := by
      rw [← hlen]
      exact h1
    rw [if_neg h1, if_neg h1p, hmapP]

theorem truncCoreH_subset (s : Settings) (heap : Heap) (history : List Addr) :
    ∀ a ∈ truncCoreH s heap history, a ∈ history := by
  rw [truncCoreH]
  split
  · split
    · exact fun a ha =>
        smartPruneHistoryH_subset s heap history a (jsSliceLast_subset _ _ a ha)
    · exact fun a ha =>
        smartPruneHistoryH_subset s heap history a (jsSliceLast_subset _ _ a ha)
  · exact smartPruneHistoryH_subset s heap history

/-- Claim C10: preparing the outgoing history never mutates the stored
conversation.  Over the explicit heap, `truncateToolResultsH` only reads
existing cells and allocates fresh copies for whatever it truncates, so
after the call every message reference of the caller's stored history still
dereferences to its full, untruncated original content; and the freshly
built reference list dereferences exactly to the pure `truncateToolResults`
of the original history. -/
theorem truncateToolResults_no_mutation (s : Settings) (heap : Heap)
    (history : List Addr) (hvalid : ∀ a ∈ history, heap.ValidMsg a) :
    (∀ a ∈ history,
      derefMsg (truncateToolResultsH s heap history).1 a = derefMsg heap a) ∧
    (truncateToolResultsH s heap history).2.map
        (derefMsg (truncateToolResultsH s heap history).1) =
      truncateToolResults s (history.map (derefMsg heap)) := by
  have hvcore : ∀ a ∈ truncCoreH s heap history, heap.ValidMsg a := fun a ha =>
    hvalid a (truncCoreH_subset s heap history a ha)
  obtain ⟨hext, hmap⟩ := truncMapGoH_spec (truncCoreH s heap history).length heap
    (truncCoreH s heap history) 0 hvcore
  rw [truncateToolResultsH_eq_core]
  constructor
  · intro a ha
    exact derefMsg_extends hext (hvalid a ha)
  · rw [hmap, truncateToolResults_eq_core,
      show (truncCoreH s heap history).length =
        (truncCore s (history.map (derefMsg heap))).length from by
          rw [← truncCoreH_map, List.length_map],
      truncCoreH_map]

def c10ToolUseBlock : ContentBlock :=
  { type := BlockType.tool_use, id := some "w1", name := some "read_file",
    input := some "path" }

def c10ResultBlock : ContentBlock :=
  { type := BlockType.tool_result, tool_use_id := some "w1",
    content := some (String.mk (List.replicate 600 'x')) }

/-- A concrete heap: six messages, the old tool-result one over the
truncation limit, so the call allocates truncated copies. -/
def c10Heap : Heap :=
  { msgCells :=
      [⟨Role.user, .str "please read that file now"⟩,
       ⟨Role.assistant, .blocks [0]⟩,
       ⟨Role.user, .blocks [1]⟩,
       ⟨Role.assistant, .str "analysis of the file contents"⟩,
       ⟨Role.user, .str "thanks for the detailed answer"⟩,
       ⟨Role.assistant, .str "you are most welcome friend"⟩],
    blockCells := [c10ToolUseBlock, c10ResultBlock] }

def c10History : List Addr := [0, 1, 2, 3, 4, 5]

theorem truncateToolResults_no_mutation_witness :
    (∀ a ∈ c10History,
      derefMsg (truncateToolResultsH {} c10Heap c10History).1 a = derefMsg c10Heap a) ∧
    (truncateToolResultsH {} c10Heap c10History).2.map
        (derefMsg (truncateToolResultsH {} c10Heap c10History).1) =
      truncateToolResults {} (c10History.map (derefMsg c10Heap)) :=
  truncateToolResults_no_mutation {} c10Heap c10History (by decide)

end ObsidianClaude
